import Mathlib

/-!
Shallow embedding of the synchronization/classification core of the repository:

* `src/lib/services/backends/shared/data.js` — `createFileList` (file classifier)
  and `fetchAndParseFiles` (sync orchestrator);
* `src/lib/services/contents/i18n.js` — `getI18nConfig`.

JavaScript strings are Lean `String`s; `undefined`/missing values are `Option`;
asynchronous collaborator calls are modelled as pure values/functions supplied
up front, with the observable call/write sequence recorded in an event trace.
-/

namespace Sveltia

/-! ## JS string helpers -/

/-- JS truthiness of an optional string: `undefined` and `""` are falsy. -/
def jsTruthy : Option String → Bool
  | none => false
  | some s => s != ""

/-- JS `a ?? b` (nullish coalescing) on optional values. -/
def jsNullish {α : Type} (a b : Option α) : Option α :=
  match a with
  | some x => some x
  | none => b

/-- JS `s.split(c)` for a single-character separator, on character lists. -/
def splitOnChar (c : Char) : List Char → List (List Char)
  | [] => [[]]
  | x :: xs =>
      let r := splitOnChar c xs
      if x == c then [] :: r
      else
        match r with
        | [] => [[x]]
        | h :: t => (x :: h) :: t

/-- JS `s.split(c)` for a single-character separator. -/
def jsSplit (s : String) (c : Char) : List String :=
  (splitOnChar c s.data).map String.mk

/-- JS `s.startsWith(pre)`. -/
def jsStartsWith (s pre : String) : Bool := pre.data.isPrefixOf s.data

/-- JS `list.pop()` on the non-empty array produced by `split`. -/
def lastPart (l : List String) : String := l.getLastD ""

/-- JS `path.split('/').pop()` — the file name of a path. -/
def fileNameOf (path : String) : String := lastPart (jsSplit path '/')

/-- JS `name.split('.').pop()` — the extension part of a file name. -/
def extensionOf (path : String) : String := lastPart (jsSplit (fileNameOf path) '.')

/-- JS `path.match(/^(.+)\//)?.[1]`: the greedy match captures everything up to
the last `/` reachable without crossing a newline (`.` does not match `\n`),
and requires at least one character before that slash. -/
def parentDir (path : String) : Option String :=
  let pre := path.data.takeWhile (fun c => c != '\n')
  let parts := splitOnChar '/' pre
  if parts.length ≥ 2 then
    let p := List.intercalate ['/'] parts.dropLast
    if p.isEmpty then none else some (String.mk p)
  else none

/-- JS `Array.prototype.findLast`. -/
def jsFindLast? {α : Type} (p : α → Bool) (l : List α) : Option α :=
  l.reverse.find? p

/-! ## Data model of the classifier -/

/-- Entry folder configuration (`CollectionEntryFolder`): an optional map of
literal file paths (only its values are consulted) and an optional folder path.
`expectedExtension` models the result of `getFileExtension` on this
configuration (see `getFileExtension`). -/
structure EntryFolderConfig where
  filePathMap : Option (List String)
  folderPath : Option String
  expectedExtension : String
deriving DecidableEq, Repr

/-- Asset folder configuration (`CollectionAssetFolder`). -/
structure AssetFolderConfig where
  internalPath : String
  entryRelative : Bool
deriving DecidableEq, Repr

/-- Modelled from the spec: `getFileExtension` lives in
`src/lib/services/contents/parser.js`, which is not part of the sources given;
the spec describes an entry folder configuration as "a folder-path prefix plus
expected file extension", so the expected extension is carried on the
configuration and returned here. -/
def getFileExtension (c : EntryFolderConfig) : String := c.expectedExtension

/-- A raw file descriptor (`BaseFileListItem`): path plus optional content
hash, metadata (opaque), text and size. -/
structure BaseFileListItem where
  path : String
  sha : Option String := none
  meta : Option String := none
  text : Option String := none
  size : Option Nat := none
deriving DecidableEq, Repr

/-- Classification tag added by `createFileList`. -/
inductive FileType where
  | entry
  | asset
deriving DecidableEq, Repr

/-- The configuration attached to a classified file. -/
inductive MatchedConfig where
  | entry (c : EntryFolderConfig)
  | asset (c : AssetFolderConfig)
deriving DecidableEq, Repr

/-- A classified file (`BaseEntryListItem` / `BaseAssetListItem`):
`{ ...fileInfo, type, config }`. -/
structure ClassifiedItem where
  file : BaseFileListItem
  type : FileType
  config : MatchedConfig
deriving DecidableEq, Repr

/-- Predicate of the entry-folder `findLast` in `createFileList`:
`folderPath ? path.startsWith(folderPath)
            : Object.values(filePathMap ?? {}).includes(path)`. -/
def entryMatches (path : String) (c : EntryFolderConfig) : Bool :=
  if jsTruthy c.folderPath then jsStartsWith path (c.folderPath.getD "")
  else (c.filePathMap.getD []).contains path

/-- Predicate of the asset-folder `findLast` in `createFileList`: prefix match
under `entryRelative`, otherwise the enclosing directory must equal
`internalPath` exactly. -/
def assetMatches (path : String) (c : AssetFolderConfig) : Bool :=
  if c.entryRelative then jsStartsWith path (c.internalPath ++ "/")
  else parentDir path == some c.internalPath

/-- One iteration of the `files.forEach` loop in `createFileList`; the
accumulator is the pair of the `entryFiles` and `assetFiles` arrays built so
far (the asset branch consults `entryFiles` including the push made for the
current file). -/
def classifyStep (entryFolders : List EntryFolderConfig)
    (assetFolders : List AssetFolderConfig)
    (acc : List ClassifiedItem × List ClassifiedItem)
    (fileInfo : BaseFileListItem) : List ClassifiedItem × List ClassifiedItem :=
  let entryFiles := acc.1
  let assetFiles := acc.2
  let path := fileInfo.path
  let name := fileNameOf path
  let extension := extensionOf path
  let entryFolderConfig := jsFindLast? (entryMatches path) entryFolders
  let mediaFolderConfig := jsFindLast? (assetMatches path) assetFolders
  let entryFiles' :=
    match entryFolderConfig with
    | some cfg =>
        if (cfg.filePathMap.getD []).contains path
            || extension == getFileExtension cfg then
          entryFiles ++ [⟨fileInfo, .entry, .entry cfg⟩]
        else entryFiles
    | none => entryFiles
  let assetFiles' :=
    match mediaFolderConfig with
    | some cfg =>
        if !(jsStartsWith name "+") && !(entryFiles'.any fun e => e.file.path == path) then
          assetFiles ++ [⟨fileInfo, .asset, .asset cfg⟩]
        else assetFiles
    | none => assetFiles
  (entryFiles', assetFiles')

/-- Result of `createFileList`. -/
structure FileList where
  entryFiles : List ClassifiedItem
  assetFiles : List ClassifiedItem
  allFiles : List ClassifiedItem
  count : Nat
deriving Repr

/-- Source `createFileList(files)`: partition the raw file list into entry and asset
files; `allFiles = [...entryFiles, ...assetFiles]`. The entry/asset folder
configurations are the `allEntryFolders` / `allAssetFolders` store values,
passed here explicitly. -/
def createFileList (entryFolders : List EntryFolderConfig)
    (assetFolders : List AssetFolderConfig)
    (files : List BaseFileListItem) : FileList :=
  let acc := files.foldl (classifyStep entryFolders assetFolders) ([], [])
  let allFiles := acc.1 ++ acc.2
  ⟨acc.1, acc.2, allFiles, allFiles.length⟩

/-! ## Pointwise characterization of the classifier -/

/-- Whether a path is classified as an entry (the condition guarding the
`entryFiles.push` in `createFileList`); it depends only on the path. -/
def isEntryClassified (entryFolders : List EntryFolderConfig) (path : String) : Bool :=
  match jsFindLast? (entryMatches path) entryFolders with
  | some cfg =>
      (cfg.filePathMap.getD []).contains path
        || extensionOf path == getFileExtension cfg
  | none => false

/-- The entry item `createFileList` produces for a single file, if any. -/
def entryItem? (entryFolders : List EntryFolderConfig)
    (f : BaseFileListItem) : Option ClassifiedItem :=
  match jsFindLast? (entryMatches f.path) entryFolders with
  | some cfg =>
      if (cfg.filePathMap.getD []).contains f.path
          || extensionOf f.path == getFileExtension cfg then
        some ⟨f, .entry, .entry cfg⟩
      else none
  | none => none

/-- The asset item `createFileList` produces for a single file, if any. -/
def assetItem? (entryFolders : List EntryFolderConfig)
    (assetFolders : List AssetFolderConfig)
    (f : BaseFileListItem) : Option ClassifiedItem :=
  match jsFindLast? (assetMatches f.path) assetFolders with
  | some cfg =>
      if !jsStartsWith (fileNameOf f.path) "+"
          && !isEntryClassified entryFolders f.path then
        some ⟨f, .asset, .asset cfg⟩
      else none
  | none => none

theorem entryItem?_eq_some_iff (ef : List EntryFolderConfig) (f : BaseFileListItem)
    (it : ClassifiedItem) :
    entryItem? ef f = some it ↔
      ∃ cfg, jsFindLast? (entryMatches f.path) ef = some cfg ∧
        ((cfg.filePathMap.getD []).contains f.path = true ∨
          extensionOf f.path = getFileExtension cfg) ∧
        it = ⟨f, .entry, .entry cfg⟩ := by
  unfold entryItem?
  cases h : jsFindLast? (entryMatches f.path) ef with
  | none => simp
  | some cfg =>
      simp only [Option.ite_none_right_eq_some, Option.some.injEq, Bool.or_eq_true,
        beq_iff_eq]
      constructor
      · rintro ⟨hcond, rfl⟩
        exact ⟨cfg, rfl, hcond, rfl⟩
      · rintro ⟨cfg', hcfg', hcond, rfl⟩
        cases hcfg'
        exact ⟨hcond, rfl⟩

theorem entryItem?_isSome_iff (ef : List EntryFolderConfig) (f : BaseFileListItem) :
    (entryItem? ef f).isSome = true ↔ isEntryClassified ef f.path = true := by
  unfold entryItem? isEntryClassified
  cases jsFindLast? (entryMatches f.path) ef with
  | none => simp
  | some cfg =>
      by_cases hc : ((cfg.filePathMap.getD []).contains f.path
          || extensionOf f.path == getFileExtension cfg) = true
      · simp [hc]
      · simp [hc]

theorem entryItem?_path (ef : List EntryFolderConfig) (f : BaseFileListItem)
    (it : ClassifiedItem) (h : entryItem? ef f = some it) : it.file = f := by
  rcases (entryItem?_eq_some_iff ef f it).mp h with ⟨cfg, _, _, rfl⟩
  rfl

theorem assetItem?_eq_some_iff (ef : List EntryFolderConfig)
    (af : List AssetFolderConfig) (f : BaseFileListItem) (it : ClassifiedItem) :
    assetItem? ef af f = some it ↔
      ∃ cfg, jsFindLast? (assetMatches f.path) af = some cfg ∧
        jsStartsWith (fileNameOf f.path) "+" = false ∧
        isEntryClassified ef f.path = false ∧
        it = ⟨f, .asset, .asset cfg⟩ := by
  unfold assetItem?
  cases h : jsFindLast? (assetMatches f.path) af with
  | none => simp
  | some cfg =>
      simp only [Option.ite_none_right_eq_some, Option.some.injEq, Bool.and_eq_true,
        Bool.not_eq_true']
      constructor
      · rintro ⟨⟨h1, h2⟩, rfl⟩
        exact ⟨cfg, rfl, h1, h2, rfl⟩
      · rintro ⟨cfg', hcfg', h1, h2, rfl⟩
        cases hcfg'
        exact ⟨⟨h1, h2⟩, rfl⟩

theorem assetItem?_path (ef : List EntryFolderConfig) (af : List AssetFolderConfig)
    (f : BaseFileListItem) (it : ClassifiedItem)
    (h : assetItem? ef af f = some it) : it.file = f := by
  rcases (assetItem?_eq_some_iff ef af f it).mp h with ⟨cfg, _, _, _, rfl⟩
  rfl

theorem assetItem?_notEntry (ef : List EntryFolderConfig) (af : List AssetFolderConfig)
    (f : BaseFileListItem) (it : ClassifiedItem)
    (h : assetItem? ef af f = some it) : isEntryClassified ef f.path = false := by
  rcases (assetItem?_eq_some_iff ef af f it).mp h with ⟨cfg, _, _, hcls, rfl⟩
  exact hcls

/-- One step of the classifier loop rewrites to the pointwise items, provided
every entry accumulated so far is entry-classified (the invariant of the
loop). -/
theorem classifyStep_eq (ef : List EntryFolderConfig) (af : List AssetFolderConfig)
    (E A : List ClassifiedItem) (f : BaseFileListItem)
    (hE : ∀ e ∈ E, isEntryClassified ef e.file.path = true) :
    classifyStep ef af (E, A) f =
      (E ++ (entryItem? ef f).toList, A ++ (assetItem? ef af f).toList) := by
  -- when the path is not entry-classified, no accumulated entry carries it
  have hany_of_not : isEntryClassified ef f.path = false →
      (E.any fun e => e.file.path == f.path) = false := by
    intro hcls
    rw [List.any_eq_false]
    intro e he hbeq
    have hpe : e.file.path = f.path := beq_iff_eq.mp hbeq
    have htrue := hE e he
    rw [hpe, hcls] at htrue
    exact Bool.false_ne_true htrue
  cases hE' : jsFindLast? (entryMatches f.path) ef with
  | none =>
      have hent : entryItem? ef f = none := by simp only [entryItem?, hE']
      have hcls : isEntryClassified ef f.path = false := by
        unfold isEntryClassified; rw [hE']
      have hany := hany_of_not hcls
      cases hA' : jsFindLast? (assetMatches f.path) af with
      | none =>
          have hast : assetItem? ef af f = none := by simp only [assetItem?, hA']
          simp only [classifyStep, hE', hA']
          simp [hent, hast]
      | some cfg =>
          by_cases hplus : jsStartsWith (fileNameOf f.path) "+" = true
          · have hast : assetItem? ef af f = none := by
              simp [assetItem?, hA', hplus]
            simp only [classifyStep, hE', hA']
            rw [hany]
            simp [hent, hast, hplus]
          · replace hplus : jsStartsWith (fileNameOf f.path) "+" = false :=
              Bool.eq_false_iff.mpr hplus
            have hast : assetItem? ef af f = some ⟨f, .asset, .asset cfg⟩ := by
              simp [assetItem?, hA', hplus, hcls]
            simp only [classifyStep, hE', hA']
            rw [hany]
            simp [hent, hast, hplus]
  | some cfg =>
      by_cases hc : ((cfg.filePathMap.getD []).contains f.path
          || extensionOf f.path == getFileExtension cfg) = true
      · -- the file is entry-classified: it is pushed, so the asset `any`
        -- check over the updated `entryFiles` finds its own path
        have hcls : isEntryClassified ef f.path = true := by
          unfold isEntryClassified; rw [hE']; exact hc
        have hent : entryItem? ef f = some ⟨f, .entry, .entry cfg⟩ := by
          simp only [entryItem?, hE']
          rw [if_pos hc]
        have hany : ((E ++ [(⟨f, .entry, .entry cfg⟩ : ClassifiedItem)]).any
            fun e => e.file.path == f.path) = true := by
          rw [List.any_eq_true]
          exact ⟨⟨f, .entry, .entry cfg⟩, by simp, by simp⟩
        cases hA' : jsFindLast? (assetMatches f.path) af with
        | none =>
            have hast : assetItem? ef af f = none := by simp only [assetItem?, hA']
            simp only [classifyStep, hE', hA']
            rw [if_pos hc]
            simp [hent, hast]
        | some cfg' =>
            have hast : assetItem? ef af f = none := by
              simp [assetItem?, hA', hcls]
            simp only [classifyStep, hE', hA']
            rw [if_pos hc, hany]
            simp [hent, hast]
      · -- entry condition fails: no push; no accumulated entry has this path
        replace hc := Bool.eq_false_iff.mpr hc
        have hcne : ¬(((cfg.filePathMap.getD []).contains f.path
            || extensionOf f.path == getFileExtension cfg) = true) := by
          rw [hc]; exact Bool.false_ne_true
        have hcls : isEntryClassified ef f.path = false := by
          unfold isEntryClassified; rw [hE']; exact hc
        have hent : entryItem? ef f = none := by
          simp only [entryItem?, hE']
          rw [if_neg hcne]
        have hany := hany_of_not hcls
        cases hA' : jsFindLast? (assetMatches f.path) af with
        | none =>
            have hast : assetItem? ef af f = none := by simp only [assetItem?, hA']
            simp only [classifyStep, hE', hA']
            rw [if_neg hcne]
            simp [hent, hast]
        | some cfg' =>
            by_cases hplus : jsStartsWith (fileNameOf f.path) "+" = true
            · have hast : assetItem? ef af f = none := by
                simp [assetItem?, hA', hplus]
              simp only [classifyStep, hE', hA']
              rw [if_neg hcne, hany]
              simp [hent, hast, hplus]
            · replace hplus : jsStartsWith (fileNameOf f.path) "+" = false :=
                Bool.eq_false_iff.mpr hplus
              have hast : assetItem? ef af f = some ⟨f, .asset, .asset cfg'⟩ := by
                simp [assetItem?, hA', hplus, hcls]
              simp only [classifyStep, hE', hA']
              rw [if_neg hcne, hany]
              simp [hent, hast, hplus]

/-- The classifier loop appends the pointwise entry and asset items of the
processed files to the accumulator. -/
theorem classify_foldl (ef : List EntryFolderConfig) (af : List AssetFolderConfig)
    (files : List BaseFileListItem) :
    ∀ E A, (∀ e ∈ E, isEntryClassified ef e.file.path = true) →
      files.foldl (classifyStep ef af) (E, A)
        = (E ++ files.filterMap (entryItem? ef),
           A ++ files.filterMap (assetItem? ef af)) := by
  induction files with
  | nil => intro E A _; simp
  | cons f fs ih =>
      intro E A hE
      rw [List.foldl_cons, classifyStep_eq ef af E A f hE]
      have hE' : ∀ e ∈ E ++ (entryItem? ef f).toList,
          isEntryClassified ef e.file.path = true := by
        intro e he
        rcases List.mem_append.mp he with h | h
        · exact hE e h
        · rcases Option.mem_toList.mp h with hsome
          have hfe := entryItem?_path ef f e hsome
          rw [hfe]
          exact (entryItem?_isSome_iff ef f).mp (by rw [hsome]; rfl)
      rw [ih _ _ hE']
      cases hef : entryItem? ef f with
      | none =>
          cases haf : assetItem? ef af f with
          | none => simp [List.filterMap_cons, hef, haf]
          | some b => simp [List.filterMap_cons, hef, haf]
      | some b =>
          cases haf : assetItem? ef af f with
          | none => simp [List.filterMap_cons, hef, haf]
          | some b' => simp [List.filterMap_cons, hef, haf]

theorem createFileList_entryFiles (ef : List EntryFolderConfig)
    (af : List AssetFolderConfig) (files : List BaseFileListItem) :
    (createFileList ef af files).entryFiles = files.filterMap (entryItem? ef) := by
  unfold createFileList
  rw [classify_foldl ef af files [] [] (by intro e he; cases he)]
  simp

theorem createFileList_assetFiles (ef : List EntryFolderConfig)
    (af : List AssetFolderConfig) (files : List BaseFileListItem) :
    (createFileList ef af files).assetFiles = files.filterMap (assetItem? ef af) := by
  unfold createFileList
  rw [classify_foldl ef af files [] [] (by intro e he; cases he)]
  simp

theorem createFileList_allFiles (ef : List EntryFolderConfig)
    (af : List AssetFolderConfig) (files : List BaseFileListItem) :
    (createFileList ef af files).allFiles =
      (createFileList ef af files).entryFiles ++ (createFileList ef af files).assetFiles := by
  unfold createFileList
  simp

/-! ## Last-match semantics -/

/-- Predicate: `a` is the last element of `l` satisfying `p`: it occurs in `l`, satisfies
`p`, and every element after it fails `p`. -/
def IsLastMatch {α : Type} (p : α → Bool) (l : List α) (a : α) : Prop :=
  ∃ l₁ l₂, l = l₁ ++ a :: l₂ ∧ p a = true ∧ ∀ b ∈ l₂, p b = false

theorem jsFindLast?_eq_some_iff {α : Type} (p : α → Bool) (l : List α) (a : α) :
    jsFindLast? p l = some a ↔ IsLastMatch p l a := by
  unfold jsFindLast? IsLastMatch
  rw [List.find?_eq_some]
  constructor
  · rintro ⟨hpa, as, bs, hrev, hall⟩
    refine ⟨bs.reverse, as.reverse, ?_, hpa, ?_⟩
    · have h := congrArg List.reverse hrev
      rw [List.reverse_reverse] at h
      rw [h]
      simp
    · intro b hb
      have hmem : b ∈ as := by simpa using hb
      simpa using hall b hmem
  · rintro ⟨l₁, l₂, rfl, hpa, hall⟩
    refine ⟨hpa, l₂.reverse, l₁.reverse, by simp, ?_⟩
    intro x hx
    have hmem : x ∈ l₂ := by simpa using hx
    simpa using hall x hmem

/-! ## Path-level helper lemmas -/

theorem entryFiles_path_iff (ef : List EntryFolderConfig)
    (af : List AssetFolderConfig) (files : List BaseFileListItem) (p : String) :
    (∃ e ∈ (createFileList ef af files).entryFiles, e.file.path = p) ↔
      (∃ x ∈ files, x.path = p) ∧ isEntryClassified ef p = true := by
  rw [createFileList_entryFiles]
  constructor
  · rintro ⟨e, he, hpe⟩
    rcases List.mem_filterMap.mp he with ⟨x, hx, hsome⟩
    have hfe := entryItem?_path ef x e hsome
    have hcls : isEntryClassified ef x.path = true :=
      (entryItem?_isSome_iff ef x).mp (by rw [hsome]; rfl)
    have hxp : x.path = p := by rw [← hpe, hfe]
    exact ⟨⟨x, hx, hxp⟩, by rw [← hxp]; exact hcls⟩
  · rintro ⟨⟨x, hx, hxp⟩, hcls⟩
    have hsome : (entryItem? ef x).isSome = true :=
      (entryItem?_isSome_iff ef x).mpr (by rw [hxp]; exact hcls)
    rcases Option.isSome_iff_exists.mp hsome with ⟨it, hit⟩
    refine ⟨it, List.mem_filterMap.mpr ⟨x, hx, hit⟩, ?_⟩
    rw [entryItem?_path ef x it hit, hxp]

theorem assetFiles_path_imp (ef : List EntryFolderConfig)
    (af : List AssetFolderConfig) (files : List BaseFileListItem) (p : String) :
    (∃ a ∈ (createFileList ef af files).assetFiles, a.file.path = p) →
      isEntryClassified ef p = false := by
  rw [createFileList_assetFiles]
  rintro ⟨a, ha, hpa⟩
  rcases List.mem_filterMap.mp ha with ⟨x, hx, hsome⟩
  have hfe := assetItem?_path ef af x a hsome
  have hcls := assetItem?_notEntry ef af x a hsome
  rw [← hpa, hfe]
  exact hcls

theorem filterMap_paths_sublist (g : BaseFileListItem → Option ClassifiedItem)
    (hg : ∀ f it, g f = some it → it.file = f) (files : List BaseFileListItem) :
    ((files.filterMap g).map fun it => it.file.path).Sublist
      (files.map BaseFileListItem.path) := by
  induction files with
  | nil => simp
  | cons f fs ih =>
      cases hgf : g f with
      | none =>
          rw [List.filterMap_cons, hgf, List.map_cons]
          exact ih.cons f.path
      | some it =>
          rw [List.filterMap_cons, hgf, List.map_cons, List.map_cons,
            hg f it hgf]
          exact ih.cons₂ f.path

/-! ## Claims about the classifier -/

/-- The entry-match predicate as the spec words it ("path is a member of
`filePathMap` if present, else path starts with `folderPath`"); used to
compare the specified predicate with the implemented one. -/
def specEntryMatches (path : String) (c : EntryFolderConfig) : Bool :=
  match c.filePathMap with
  | some m => m.contains path
  | none => jsTruthy c.folderPath && jsStartsWith path (c.folderPath.getD "")

/-- Entry config with both a file-path map and a (non-matching) folder path. -/
def entryCfgBoth : EntryFolderConfig :=
  { filePathMap := some ["other/x.md"], folderPath := some "content",
    expectedExtension := "md" }

/-- A file whose path is listed in `entryCfgBoth.filePathMap` but outside its
`folderPath`. -/
def fileOtherX : BaseFileListItem := { path := "other/x.md" }

/-- C2 (counterexample): for a config carrying both `filePathMap` and
`folderPath`, the code tests `folderPath` first (`folderPath ? startsWith :
filePathMap`), while the claim gives `filePathMap` priority. At
`other/x.md` the claimed predicate matches (path is a member of the present
`filePathMap`) and so the claim classifies the file as an entry, yet
`createFileList` produces no entry. -/
theorem C2_counterexample :
    specEntryMatches "other/x.md" entryCfgBoth = true ∧
    (entryCfgBoth.filePathMap.getD []).contains "other/x.md" = true ∧
    entryMatches "other/x.md" entryCfgBoth = false ∧
    (createFileList [entryCfgBoth] [] [fileOtherX]).entryFiles = [] := by
  refine ⟨by decide, by decide, by decide, ?_⟩
  decide

/-- C2 (amended): a file is classified as an entry with attached config `cfg`
exactly when it occurs in the input, `cfg` is the last config in list order
whose predicate holds — the predicate being "path starts with `folderPath`"
when `folderPath` is present and non-empty, else "path is a member of
`filePathMap`" — and the path is in `cfg`'s `filePathMap` or its extension
equals `cfg`'s expected extension; matching does not short-circuit on the
first hit. -/
theorem C2_entry_classification (ef : List EntryFolderConfig)
    (af : List AssetFolderConfig) (files : List BaseFileListItem)
    (f : BaseFileListItem) (cfg : EntryFolderConfig) :
    (⟨f, .entry, .entry cfg⟩ : ClassifiedItem) ∈
        (createFileList ef af files).entryFiles ↔
      f ∈ files ∧ IsLastMatch (entryMatches f.path) ef cfg ∧
        ((cfg.filePathMap.getD []).contains f.path = true ∨
          extensionOf f.path = getFileExtension cfg) := by
  rw [createFileList_entryFiles, List.mem_filterMap]
  constructor
  · rintro ⟨x, hx, hsome⟩
    rcases (entryItem?_eq_some_iff ef x _).mp hsome with ⟨cfg', hlast, hcond, heq⟩
    cases heq
    exact ⟨hx, (jsFindLast?_eq_some_iff _ _ _).mp hlast, hcond⟩
  · rintro ⟨hf, hlast, hcond⟩
    refine ⟨f, hf, ?_⟩
    exact (entryItem?_eq_some_iff ef f _).mpr
      ⟨cfg, (jsFindLast?_eq_some_iff _ _ _).mpr hlast, hcond, rfl⟩

/-- C2 (witness): the spec's own last-match scenario — with an entry config
for `content/posts` and extension `md`, the file `content/posts/a.md` is
classified as an entry with that config attached. -/
theorem C2_witness :
    (⟨{ path := "content/posts/a.md" }, .entry,
        .entry ⟨none, some "content/posts", "md"⟩⟩ : ClassifiedItem) ∈
      (createFileList [⟨none, some "content/posts", "md"⟩]
        [⟨"static/images", false⟩] [{ path := "content/posts/a.md" }]).entryFiles := by
  refine (C2_entry_classification _ _ _ _ _).mpr ⟨by decide, ⟨[], [], rfl, by decide, ?_⟩, ?_⟩
  · intro b hb
    cases hb
  · right
    decide

/-- C3: a file is classified as an asset with attached config `cfg` exactly
when it occurs in the input, `cfg` is the last asset config in list order
whose predicate holds — prefix match against `internalPath ++ "/"` when
`entryRelative` is set, else the immediate parent directory equals
`internalPath` exactly — its file name does not start with the reserved
marker `+`, and no entry was produced for the same path. -/
theorem C3_asset_classification (ef : List EntryFolderConfig)
    (af : List AssetFolderConfig) (files : List BaseFileListItem)
    (f : BaseFileListItem) (cfg : AssetFolderConfig) :
    (⟨f, .asset, .asset cfg⟩ : ClassifiedItem) ∈
        (createFileList ef af files).assetFiles ↔
      f ∈ files ∧ IsLastMatch (assetMatches f.path) af cfg ∧
        jsStartsWith (fileNameOf f.path) "+" = false ∧
        ¬∃ e ∈ (createFileList ef af files).entryFiles, e.file.path = f.path := by
  rw [createFileList_assetFiles, List.mem_filterMap]
  constructor
  · rintro ⟨x, hx, hsome⟩
    rcases (assetItem?_eq_some_iff ef af x _).mp hsome with
      ⟨cfg', hlast, hplus, hcls, heq⟩
    cases heq
    refine ⟨hx, (jsFindLast?_eq_some_iff _ _ _).mp hlast, hplus, ?_⟩
    intro hex
    have hiff := (entryFiles_path_iff ef af files f.path).mp hex
    rw [hiff.2] at hcls
    exact absurd hcls (by decide)
  · rintro ⟨hf, hlast, hplus, hnone⟩
    have hcls : isEntryClassified ef f.path = false := by
      cases hcl : isEntryClassified ef f.path with
      | false => rfl
      | true =>
          exact absurd ((entryFiles_path_iff ef af files f.path).mpr
            ⟨⟨f, hf, rfl⟩, hcl⟩) hnone
    refine ⟨f, hf, ?_⟩
    exact (assetItem?_eq_some_iff ef af f _).mpr
      ⟨cfg, (jsFindLast?_eq_some_iff _ _ _).mpr hlast, hplus, hcls, rfl⟩

/-- C3 (witness): the spec's scenario — `static/images/cat.png` is classified
as an asset of the non-`entryRelative` config for `static/images`, while
`static/images/sub/dog.png` (parent directory `static/images/sub`) and
`content/pages/+layout.ext` (reserved marker) are not classified at all. -/
theorem C3_witness :
    ((⟨{ path := "static/images/cat.png" }, .asset,
        .asset ⟨"static/images", false⟩⟩ : ClassifiedItem) ∈
      (createFileList [⟨none, some "content/posts", "md"⟩]
        [⟨"static/images", false⟩]
        [{ path := "content/posts/a.md" }, { path := "static/images/cat.png" },
          { path := "static/images/sub/dog.png" },
          { path := "content/pages/+layout.ext" }]).assetFiles) ∧
    ((createFileList [⟨none, some "content/posts", "md"⟩]
        [⟨"static/images", false⟩]
        [{ path := "content/posts/a.md" }, { path := "static/images/cat.png" },
          { path := "static/images/sub/dog.png" },
          { path := "content/pages/+layout.ext" }]).assetFiles.map
        fun it => it.file.path) = ["static/images/cat.png"] := by
  constructor
  · refine (C3_asset_classification _ _ _ _ _).mpr
      ⟨by decide, ⟨[], [], rfl, by decide, ?_⟩, by decide, ?_⟩
    · intro b hb
      cases hb
    · rintro ⟨e, he, hpe⟩
      have hlist : (createFileList [⟨none, some "content/posts", "md"⟩]
          [⟨"static/images", false⟩]
          [{ path := "content/posts/a.md" }, { path := "static/images/cat.png" },
            { path := "static/images/sub/dog.png" },
            { path := "content/pages/+layout.ext" }]).entryFiles
          = [⟨{ path := "content/posts/a.md" }, .entry,
              .entry ⟨none, some "content/posts", "md"⟩⟩] := by decide
      rw [hlist] at he
      rcases List.mem_singleton.mp he with rfl
      exact absurd hpe (by decide)
  · decide

/-- Entry folder config used by the duplicate-path counterexample. -/
def entryCfgPosts : EntryFolderConfig :=
  { filePathMap := none, folderPath := some "content/posts",
    expectedExtension := "md" }

/-- A file matched by `entryCfgPosts`. -/
def filePostA : BaseFileListItem := { path := "content/posts/a.md" }

/-- C8 (counterexample): when the input file list itself repeats a path, the
repeated path is classified twice and `allFiles` contains it twice — the
claim's "no path appears more than once in `allFiles`" fails for such
inputs. -/
theorem C8_counterexample :
    ¬(((createFileList [entryCfgPosts] [] [filePostA, filePostA]).allFiles.map
        fun it => it.file.path).Nodup) := by
  decide

/-- C8 (amended): `entryFiles` and `assetFiles` are disjoint by path for all
inputs (a path is never simultaneously entry and asset); and provided the
input paths are pairwise distinct, no path appears more than once in
`allFiles`. -/
theorem C8_no_duplicate_paths (ef : List EntryFolderConfig)
    (af : List AssetFolderConfig) (files : List BaseFileListItem) :
    (∀ p, (∃ e ∈ (createFileList ef af files).entryFiles, e.file.path = p) →
      ¬∃ a ∈ (createFileList ef af files).assetFiles, a.file.path = p) ∧
    ((files.map BaseFileListItem.path).Nodup →
      (((createFileList ef af files).allFiles.map fun it => it.file.path).Nodup)) := by
  have hdisj : ∀ p,
      (∃ e ∈ (createFileList ef af files).entryFiles, e.file.path = p) →
      ¬∃ a ∈ (createFileList ef af files).assetFiles, a.file.path = p := by
    intro p hent hast
    have h1 := ((entryFiles_path_iff ef af files p).mp hent).2
    have h2 := assetFiles_path_imp ef af files p hast
    rw [h1] at h2
    exact absurd h2 (by decide)
  refine ⟨hdisj, ?_⟩
  intro hnd
  rw [createFileList_allFiles, List.map_append]
  have hsubE : (((createFileList ef af files).entryFiles.map
      fun it => it.file.path).Sublist (files.map BaseFileListItem.path)) := by
    rw [createFileList_entryFiles]
    exact filterMap_paths_sublist _ (entryItem?_path ef) files
  have hsubA : (((createFileList ef af files).assetFiles.map
      fun it => it.file.path).Sublist (files.map BaseFileListItem.path)) := by
    rw [createFileList_assetFiles]
    exact filterMap_paths_sublist _ (assetItem?_path ef af) files
  rw [List.nodup_append]
  refine ⟨hsubE.nodup hnd, hsubA.nodup hnd, ?_⟩
  intro p hpE hpA
  rcases List.mem_map.mp hpE with ⟨e, he, hpe⟩
  rcases List.mem_map.mp hpA with ⟨a, ha, hpa⟩
  exact hdisj p ⟨e, he, hpe⟩ ⟨a, ha, hpa⟩

/-- C8 (witness): on a concrete duplicate-free input the classified `allFiles`
paths are duplicate-free. -/
theorem C8_witness :
    (([filePostA].map BaseFileListItem.path).Nodup) ∧
    (((createFileList [entryCfgPosts] [] [filePostA]).allFiles.map
        fun it => it.file.path).Nodup) :=
  ⟨by decide, (C8_no_duplicate_paths [entryCfgPosts] [] [filePostA]).2 (by decide)⟩

/-! ## Sync orchestrator (`fetchAndParseFiles`)

The IndexedDB state (`meta` and `file-cache` stores), the published Svelte
stores and the repository's `branch` field form the explicit `SyncState`; the
four asynchronous collaborators are pure values/functions in `Collaborators`;
the observable sequence of collaborator calls and cache writes is returned as
an event trace. -/

/-- A record of the `file-cache` store: the value part of
`{path: {sha, meta, text?, size?}}` (all keys present, possibly
`undefined`). -/
structure CacheRecord where
  sha : Option String := none
  meta : Option String := none
  text : Option String := none
  size : Option Nat := none
deriving DecidableEq, Repr

/-- A published asset: `{...file, name, meta, size, text}`. -/
structure PublishedAsset where
  item : ClassifiedItem
  name : String
deriving DecidableEq, Repr

/-- Observable calls and cache writes of one `fetchAndParseFiles` run, in
program order. -/
inductive SyncEvent where
  | fetchDefaultBranch
  | fetchLastCommitHash
  | listFiles
  | setMetaHash (hash : String)
  | fetchContents (paths : List String)
  | publish
  | saveCacheEntries (entries : List (String × CacheRecord))
  | deleteCacheEntries (paths : List String)
deriving DecidableEq, Repr

/-- The remote/configuration collaborators of `fetchAndParseFiles`, modelled
as the values their calls resolve to during one sync. `allEntryFolders` and
`allAssetFolders` are the store values read by `createFileList`. -/
structure Collaborators where
  fetchDefaultBranchName : String
  fetchLastCommitHash : String
  fetchFileList : List BaseFileListItem
  fetchFileContents : List ClassifiedItem → List (String × CacheRecord)
  allEntryFolders : List EntryFolderConfig
  allAssetFolders : List AssetFolderConfig

/-- The mutable state surrounding one sync: `repository.branch` (`""` when
unset), the `meta` store's `last_commit_hash`, the `file-cache` store
entries, the published `allEntries` / `allAssets` stores (`none` before any
publish) and the `dataLoaded` flag. -/
structure SyncState where
  branch : String
  lastCommitHashMeta : Option String
  fileCache : List (String × CacheRecord)
  allEntries : Option (List ClassifiedItem)
  allAssets : Option (List PublishedAsset)
  dataLoaded : Bool
deriving DecidableEq, Repr

/-- Lookup in a JS object built by `Object.fromEntries` (later entries win). -/
def objLookup (entries : List (String × CacheRecord)) (p : String) : Option CacheRecord :=
  (entries.reverse.find? fun e => e.1 == p).map Prod.snd

/-- IndexedDB `get` on the cache store (keys are unique in the store). -/
def cacheLookup (cache : List (String × CacheRecord)) (p : String) : Option CacheRecord :=
  (cache.find? fun e => e.1 == p).map Prod.snd

/-- One IndexedDB `put`: replace the record at the key, or append it. -/
def upsertOne (cache : List (String × CacheRecord)) (e : String × CacheRecord) :
    List (String × CacheRecord) :=
  if cache.any fun x => x.1 == e.1 then
    cache.map fun x => if x.1 == e.1 then e else x
  else cache ++ [e]

/-- Source `cacheDB.saveEntries(entries)`: upsert each entry in order. -/
def saveEntries (cache : List (String × CacheRecord))
    (newEntries : List (String × CacheRecord)) : List (String × CacheRecord) :=
  newEntries.foldl upsertOne cache

/-- Source `cacheDB.deleteEntries(paths)`. -/
def deleteEntries (cache : List (String × CacheRecord)) (paths : List String) :
    List (String × CacheRecord) :=
  cache.filter fun x => !paths.contains x.1

/-- Source `{ path, ...data }` — reconstruct a raw file descriptor from a cache
entry. -/
def recordToItem (p : String) (r : CacheRecord) : BaseFileListItem :=
  { path := p, sha := r.sha, meta := r.meta, text := r.text, size := r.size }

/-- The cache-hit condition of `fetchAndParseFiles`:
`cachedHash && cachedHash === lastHash && cachedFileEntries.length`. -/
def cacheHitB (c : Collaborators) (st : SyncState) : Bool :=
  (match st.lastCommitHashMeta with
   | some h => (h != "") && (h == c.fetchLastCommitHash)
   | none => false) && !st.fileCache.isEmpty

/-- The raw file list fed to `createFileList`: reconstructed from the cache
on a cache hit, otherwise the remote listing. -/
def rawFileList (c : Collaborators) (st : SyncState) : List BaseFileListItem :=
  if cacheHitB c st then st.fileCache.map fun pr => recordToItem pr.1 pr.2
  else c.fetchFileList

/-- The classified `fileList` of the run. -/
def classifiedList (c : Collaborators) (st : SyncState) : FileList :=
  createFileList c.allEntryFolders c.allAssetFolders (rawFileList c st)

/-- The cache-restore step: `if (cachedFiles[path]?.sha === sha)
Object.assign(allFiles[index], cachedFiles[path])`. -/
def restoreCached (cachedFileEntries : List (String × CacheRecord))
    (it : ClassifiedItem) : ClassifiedItem :=
  let r? := objLookup cachedFileEntries it.file.path
  if (r?.bind CacheRecord.sha) == it.file.sha then
    match r? with
    | some r =>
        { it with file := { it.file with
            sha := r.sha, meta := r.meta, text := r.text, size := r.size } }
    | none => it
  else it

/-- The `entryFiles` after the cache-restore loop (the loop runs over `allFiles`,
whose elements alias the `entryFiles`/`assetFiles` elements). -/
def restoredEntryFiles (c : Collaborators) (st : SyncState) : List ClassifiedItem :=
  (classifiedList c st).entryFiles.map (restoreCached st.fileCache)

/-- The `assetFiles` after the cache-restore loop. -/
def restoredAssetFiles (c : Collaborators) (st : SyncState) : List ClassifiedItem :=
  (classifiedList c st).assetFiles.map (restoreCached st.fileCache)

/-- The `allFiles` after the cache-restore loop. -/
def restoredAllFiles (c : Collaborators) (st : SyncState) : List ClassifiedItem :=
  restoredEntryFiles c st ++ restoredAssetFiles c st

/-- Source `fetchingFiles = allFiles.filter(({ meta }) => !meta)`. -/
def fetchingFiles (c : Collaborators) (st : SyncState) : List ClassifiedItem :=
  (restoredAllFiles c st).filter fun it => it.file.meta == none

/-- Source `fetchedFileMap = fetchingFiles.length ? await fetchFileContents(...)` with an
empty object otherwise. -/
def fetchedFileMap (c : Collaborators) (st : SyncState) : List (String × CacheRecord) :=
  if (fetchingFiles c st).isEmpty then [] else c.fetchFileContents (fetchingFiles c st)

/-- An entry as published: `{...file, text: file.text ?? text,
meta: file.meta ?? meta}` with the fetched map entry for its path. -/
def mergeEntryFile (fmap : List (String × CacheRecord)) (it : ClassifiedItem) :
    ClassifiedItem :=
  let fr := objLookup fmap it.file.path
  { it with file := { it.file with
      text := jsNullish it.file.text (fr.bind CacheRecord.text),
      meta := jsNullish it.file.meta (fr.bind CacheRecord.meta) } }

/-- An asset as published: `{...file, name, meta: file.meta ?? meta,
size: file.size ?? size, text: file.text ?? text}`. -/
def mergeAssetFile (fmap : List (String × CacheRecord)) (it : ClassifiedItem) :
    PublishedAsset :=
  let fr := objLookup fmap it.file.path
  { item := { it with file := { it.file with
      meta := jsNullish it.file.meta (fr.bind CacheRecord.meta),
      size := jsNullish it.file.size (fr.bind CacheRecord.size),
      text := jsNullish it.file.text (fr.bind CacheRecord.text) } },
    name := fileNameOf it.file.path }

/-- Modelled from the spec: `parseEntryFiles` is an external parsing
collaborator (`src/lib/services/contents/parser.js`, not under the given
sources); the spec scopes parsing out and the published output is a
deterministic function of the merged entry list, modelled as the list
itself. -/
def parseEntryFiles (l : List ClassifiedItem) : List ClassifiedItem := l

/-- Modelled from the spec: `parseAssetFiles` is an external parsing
collaborator (`src/lib/services/assets/parser.js`, not under the given
sources); modelled as the identity on the merged asset list. -/
def parseAssetFiles (l : List PublishedAsset) : List PublishedAsset := l

/-- The entry list passed to `parseEntryFiles` and published to
`allEntries`. -/
def publishedEntries (c : Collaborators) (st : SyncState) : List ClassifiedItem :=
  (restoredEntryFiles c st).map (mergeEntryFile (fetchedFileMap c st))

/-- The asset list passed to `parseAssetFiles` and published to
`allAssets`. -/
def publishedAssets (c : Collaborators) (st : SyncState) : List PublishedAsset :=
  (restoredAssetFiles c st).map (mergeAssetFile (fetchedFileMap c st))

/-- Source `usedPaths = allFiles.map(({ path }) => path)`. -/
def usedPaths (c : Collaborators) (st : SyncState) : List String :=
  (restoredAllFiles c st).map fun it => it.file.path

/-- Source `unusedPaths = Object.keys(cachedFiles).filter(p => !usedPaths.includes(p))`. -/
def unusedPaths (c : Collaborators) (st : SyncState) : List String :=
  (st.fileCache.map Prod.fst).filter fun p => !(usedPaths c st).contains p

/-- Source `fetchAndParseFiles`: resolve the branch if unset, resolve the latest
commit hash, decide cache-hit vs full listing (persisting the hash in the
full-listing branch), classify, short-circuit on an empty list, restore
cached data, fetch missing contents, publish, save new caches and delete the
stale ones. Returns the final state and the event trace. -/
def fetchAndParseFiles (c : Collaborators) (st : SyncState) :
    SyncState × List SyncEvent :=
  let branchEvents := if st.branch == "" then [SyncEvent.fetchDefaultBranch] else []
  let branch := if st.branch == "" then c.fetchDefaultBranchName else st.branch
  let listingEvents :=
    if cacheHitB c st then []
    else [SyncEvent.listFiles, SyncEvent.setMetaHash c.fetchLastCommitHash]
  let metaHash :=
    if cacheHitB c st then st.lastCommitHashMeta else some c.fetchLastCommitHash
  let preEvents := branchEvents ++ [SyncEvent.fetchLastCommitHash] ++ listingEvents
  if (classifiedList c st).count == 0 then
    ({ st with
        branch := branch
        lastCommitHashMeta := metaHash
        allEntries := some []
        allAssets := some []
        dataLoaded := true },
     preEvents ++ [SyncEvent.publish])
  else
    let fetchEvents :=
      if (fetchingFiles c st).isEmpty then []
      else [SyncEvent.fetchContents ((fetchingFiles c st).map fun it => it.file.path)]
    let cacheAfterSave :=
      if (fetchingFiles c st).isEmpty then st.fileCache
      else saveEntries st.fileCache (fetchedFileMap c st)
    let saveEvents :=
      if (fetchingFiles c st).isEmpty then []
      else [SyncEvent.saveCacheEntries (fetchedFileMap c st)]
    let cacheAfterDelete :=
      if (unusedPaths c st).isEmpty then cacheAfterSave
      else deleteEntries cacheAfterSave (unusedPaths c st)
    let deleteEvents :=
      if (unusedPaths c st).isEmpty then []
      else [SyncEvent.deleteCacheEntries (unusedPaths c st)]
    ({ st with
        branch := branch
        lastCommitHashMeta := metaHash
        allEntries := some (parseEntryFiles (publishedEntries c st))
        allAssets := some (parseAssetFiles (publishedAssets c st))
        dataLoaded := true
        fileCache := cacheAfterDelete },
     preEvents ++ fetchEvents ++ [SyncEvent.publish] ++ saveEvents ++ deleteEvents)

/-! ## Cache-store lemmas -/

theorem contains_iff_mem {l : List String} {a : String} :
    l.contains a = true ↔ a ∈ l := List.elem_iff

theorem map_eq_self_of {α : Type} (f : α → α) (l : List α)
    (h : ∀ x ∈ l, f x = x) : l.map f = l := by
  induction l with
  | nil => rfl
  | cons x xs ih =>
      rw [List.map_cons, h x (List.mem_cons_self x xs),
        ih fun y hy => h y (List.mem_cons_of_mem x hy)]

theorem find?_key_nodup {l : List (String × CacheRecord)} {p : String}
    {r : CacheRecord} (hnodup : (l.map Prod.fst).Nodup) (hmem : (p, r) ∈ l) :
    (l.find? fun e => e.1 == p) = some (p, r) := by
  induction l with
  | nil => cases hmem
  | cons x xs ih =>
      rcases List.mem_cons.mp hmem with rfl | hmem'
      · exact List.find?_cons_of_pos xs (by simp)
      · have hx : x.1 ≠ p := by
          intro hxp
          have hkey : p ∈ xs.map Prod.fst := List.mem_map.mpr ⟨(p, r), hmem', rfl⟩
          rw [List.map_cons, List.nodup_cons] at hnodup
          rw [hxp] at hnodup
          exact hnodup.1 hkey
        rw [List.find?_cons_of_neg xs (by simpa using hx)]
        exact ih (by rw [List.map_cons, List.nodup_cons] at hnodup; exact hnodup.2)
          hmem'

theorem objLookup_nodup {cache : List (String × CacheRecord)} {p : String}
    {r : CacheRecord} (hnodup : (cache.map Prod.fst).Nodup)
    (hmem : (p, r) ∈ cache) : objLookup cache p = some r := by
  unfold objLookup
  rw [find?_key_nodup (by rw [List.map_reverse]; exact List.nodup_reverse.mpr hnodup)
    (List.mem_reverse.mpr hmem)]
  rfl

theorem cacheLookup_nodup {cache : List (String × CacheRecord)} {p : String}
    {r : CacheRecord} (hnodup : (cache.map Prod.fst).Nodup)
    (hmem : (p, r) ∈ cache) : cacheLookup cache p = some r := by
  unfold cacheLookup
  rw [find?_key_nodup hnodup hmem]
  rfl

theorem cacheLookup_upsertOne_self (cache : List (String × CacheRecord))
    (p : String) (r : CacheRecord) :
    cacheLookup (upsertOne cache (p, r)) p = some r := by
  unfold upsertOne
  rw [show ((p, r) : String × CacheRecord).1 = p from rfl]
  by_cases hany : (cache.any fun x => x.1 == p) = true
  · rw [if_pos hany]
    unfold cacheLookup
    induction cache with
    | nil => cases hany
    | cons x xs ih =>
        rw [List.map_cons]
        by_cases hx : (x.1 == p) = true
        · rw [if_pos hx, List.find?_cons_of_pos _ (by simp)]
          rfl
        · rw [if_neg hx, List.find?_cons_of_neg _ (by simpa using hx)]
          rw [List.any_cons, Bool.or_eq_true] at hany
          rcases hany with h | h
          · exact absurd h hx
          · exact ih h
  · rw [if_neg hany]
    unfold cacheLookup
    rw [List.find?_append]
    have hfalse : (cache.any fun x => x.1 == p) = false := Bool.eq_false_iff.mpr hany
    have hnone : (cache.find? fun e => e.1 == p) = none := by
      rw [List.find?_eq_none]
      intro x hx
      exact fun hbeq => absurd hbeq (by
        have := (List.any_eq_false.mp hfalse) x hx
        simpa using this)
    rw [hnone, List.find?_cons_of_pos _ (by simp)]
    rfl

theorem cacheLookup_upsertOne_other (cache : List (String × CacheRecord))
    (e : String × CacheRecord) (q : String) (hq : q ≠ e.1) :
    cacheLookup (upsertOne cache e) q = cacheLookup cache q := by
  have heq : (e.1 == q) = false := beq_eq_false_iff_ne.mpr fun h => hq h.symm
  unfold upsertOne
  by_cases hany : (cache.any fun x => x.1 == e.1) = true
  · rw [if_pos hany]
    unfold cacheLookup
    have hmap : ∀ (xs : List (String × CacheRecord)),
        (xs.map fun x => if x.1 == e.1 then e else x).find? (fun x => x.1 == q)
          = xs.find? fun x => x.1 == q := by
      intro xs
      induction xs with
      | nil => rfl
      | cons x l ihl =>
          rw [List.map_cons]
          by_cases hx : (x.1 == e.1) = true
          · have hxq : (x.1 == q) = false := by
              rw [beq_iff_eq.mp hx]
              exact heq
            rw [if_pos hx, List.find?_cons_of_neg _ (by simp [heq]),
              List.find?_cons_of_neg _ (by simp [hxq])]
            exact ihl
          · rw [if_neg hx]
            by_cases hxq : (x.1 == q) = true
            · rw [@List.find?_cons_of_pos _ (fun y => y.1 == q) x
                  (List.map (fun y => if y.1 == e.1 then e else y) l) hxq,
                @List.find?_cons_of_pos _ (fun y => y.1 == q) x l hxq]
            · rw [@List.find?_cons_of_neg _ (fun y => y.1 == q) x
                  (List.map (fun y => if y.1 == e.1 then e else y) l) hxq,
                @List.find?_cons_of_neg _ (fun y => y.1 == q) x l hxq]
              exact ihl
    rw [hmap]
  · rw [if_neg hany]
    unfold cacheLookup
    rw [List.find?_append]
    have hsingle : ([e].find? fun x => x.1 == q) = none := by
      rw [List.find?_cons_of_neg _ (by simp [heq])]
      rfl
    rw [hsingle]
    cases cache.find? fun x => x.1 == q <;> rfl

theorem cacheLookup_saveEntries_not_mem (cache : List (String × CacheRecord))
    (news : List (String × CacheRecord)) (q : String)
    (hq : q ∉ news.map Prod.fst) :
    cacheLookup (saveEntries cache news) q = cacheLookup cache q := by
  induction news generalizing cache with
  | nil => rfl
  | cons e es ih =>
      rw [List.map_cons] at hq
      have hq1 : q ≠ e.1 := fun h => hq (h ▸ List.mem_cons_self _ _)
      have hq2 : q ∉ es.map Prod.fst := fun h => hq (List.mem_cons_of_mem _ h)
      show cacheLookup (saveEntries (upsertOne cache e) es) q = cacheLookup cache q
      rw [ih (upsertOne cache e) hq2, cacheLookup_upsertOne_other cache e q hq1]

theorem cacheLookup_saveEntries_mem (cache : List (String × CacheRecord))
    (news : List (String × CacheRecord))
    (hnodup : (news.map Prod.fst).Nodup) :
    ∀ pr ∈ news, cacheLookup (saveEntries cache news) pr.1 = some pr.2 := by
  induction news generalizing cache with
  | nil => intro pr h; cases h
  | cons e es ih =>
      intro pr hpr
      rw [List.map_cons, List.nodup_cons] at hnodup
      rcases List.mem_cons.mp hpr with rfl | hmem
      · show cacheLookup (saveEntries (upsertOne cache pr) es) pr.1 = some pr.2
        rw [cacheLookup_saveEntries_not_mem _ es pr.1 hnodup.1]
        rcases pr with ⟨p, r⟩
        exact cacheLookup_upsertOne_self cache p r
      · exact ih (upsertOne cache e) hnodup.2 pr hmem

theorem find?_filter_of_imp {α : Type} (pred keep : α → Bool) (l : List α)
    (h : ∀ x, pred x = true → keep x = true) :
    (l.filter keep).find? pred = l.find? pred := by
  induction l with
  | nil => rfl
  | cons x xs ih =>
      by_cases hk : keep x = true
      · rw [List.filter_cons_of_pos hk]
        by_cases hp : pred x = true
        · rw [List.find?_cons_of_pos _ hp, List.find?_cons_of_pos _ hp]
        · rw [List.find?_cons_of_neg _ hp, List.find?_cons_of_neg _ hp]
          exact ih
      · have hp : pred x = false := by
          cases hpx : pred x with
          | false => rfl
          | true => exact absurd (h x hpx) hk
        rw [List.filter_cons_of_neg (by simpa using hk),
          List.find?_cons_of_neg _ (by simp [hp])]
        exact ih

theorem cacheLookup_deleteEntries_not_mem (cache : List (String × CacheRecord))
    (paths : List String) (p : String) (hp : p ∉ paths) :
    cacheLookup (deleteEntries cache paths) p = cacheLookup cache p := by
  unfold cacheLookup deleteEntries
  rw [find?_filter_of_imp]
  intro x hx
  have hxp : x.1 = p := beq_iff_eq.mp hx
  have hcont : paths.contains x.1 = false := by
    cases hc : paths.contains x.1 with
    | false => rfl
    | true => exact absurd (by rw [← hxp]; exact contains_iff_mem.mp hc) hp
  rw [hcont]
  rfl

theorem cacheLookup_deleteEntries_mem (cache : List (String × CacheRecord))
    (paths : List String) (p : String) (hp : p ∈ paths) :
    cacheLookup (deleteEntries cache paths) p = none := by
  unfold cacheLookup deleteEntries
  have hnone : ((cache.filter fun x => !paths.contains x.1).find?
      fun e => e.1 == p) = none := by
    rw [List.find?_eq_none]
    intro x hx hbeq
    have hxp : x.1 = p := beq_iff_eq.mp hbeq
    rcases List.mem_filter.mp hx with ⟨_, hkeep⟩
    have hcont : paths.contains x.1 = true := by
      rw [hxp]
      exact contains_iff_mem.mpr hp
    rw [hcont] at hkeep
    exact absurd hkeep (by decide)
  rw [hnone]
  rfl

/-! ## Shape of a sync run -/

theorem mem_ite_nil_right {α : Type} (x : α) (b : Bool) (l : List α) :
    (x ∈ if b then l else []) ↔ b = true ∧ x ∈ l := by
  cases b <;> simp

theorem mem_ite_nil_left {α : Type} (x : α) (b : Bool) (l : List α) :
    (x ∈ if b then [] else l) ↔ b = false ∧ x ∈ l := by
  cases b <;> simp

/-- The event trace of one run, laid out by the branch conditions. -/
theorem fetchAndParseFiles_events (c : Collaborators) (st : SyncState) :
    (fetchAndParseFiles c st).2 =
      (if st.branch == "" then [SyncEvent.fetchDefaultBranch] else [])
      ++ [SyncEvent.fetchLastCommitHash]
      ++ (if cacheHitB c st then []
          else [SyncEvent.listFiles, SyncEvent.setMetaHash c.fetchLastCommitHash])
      ++ (if (classifiedList c st).count == 0 then [SyncEvent.publish]
          else
            (if (fetchingFiles c st).isEmpty then []
             else [SyncEvent.fetchContents
                ((fetchingFiles c st).map fun it => it.file.path)])
            ++ [SyncEvent.publish]
            ++ (if (fetchingFiles c st).isEmpty then []
                else [SyncEvent.saveCacheEntries (fetchedFileMap c st)])
            ++ (if (unusedPaths c st).isEmpty then []
                else [SyncEvent.deleteCacheEntries (unusedPaths c st)])) := by
  unfold fetchAndParseFiles
  by_cases hc : ((classifiedList c st).count == 0) = true
  · rw [if_pos hc, if_pos hc]
  · rw [if_neg hc, if_neg hc]
    simp

theorem fetchAndParseFiles_lastCommitHashMeta (c : Collaborators) (st : SyncState) :
    (fetchAndParseFiles c st).1.lastCommitHashMeta =
      if cacheHitB c st then st.lastCommitHashMeta else some c.fetchLastCommitHash := by
  unfold fetchAndParseFiles
  by_cases hc : ((classifiedList c st).count == 0) = true
  · rw [if_pos hc]
  · rw [if_neg hc]

theorem fetchAndParseFiles_allEntries (c : Collaborators) (st : SyncState) :
    (fetchAndParseFiles c st).1.allEntries =
      if (classifiedList c st).count == 0 then some []
      else some (publishedEntries c st) := by
  unfold fetchAndParseFiles
  by_cases hc : ((classifiedList c st).count == 0) = true
  · rw [if_pos hc, if_pos hc]
  · rw [if_neg hc, if_neg hc]
    rfl

theorem fetchAndParseFiles_allAssets (c : Collaborators) (st : SyncState) :
    (fetchAndParseFiles c st).1.allAssets =
      if (classifiedList c st).count == 0 then some []
      else some (publishedAssets c st) := by
  unfold fetchAndParseFiles
  by_cases hc : ((classifiedList c st).count == 0) = true
  · rw [if_pos hc, if_pos hc]
  · rw [if_neg hc, if_neg hc]
    rfl

theorem fetchAndParseFiles_dataLoaded (c : Collaborators) (st : SyncState) :
    (fetchAndParseFiles c st).1.dataLoaded = true := by
  unfold fetchAndParseFiles
  by_cases hc : ((classifiedList c st).count == 0) = true
  · rw [if_pos hc]
  · rw [if_neg hc]

theorem fetchAndParseFiles_fileCache (c : Collaborators) (st : SyncState) :
    (fetchAndParseFiles c st).1.fileCache =
      if (classifiedList c st).count == 0 then st.fileCache
      else
        let afterSave :=
          if (fetchingFiles c st).isEmpty then st.fileCache
          else saveEntries st.fileCache (fetchedFileMap c st)
        if (unusedPaths c st).isEmpty then afterSave
        else deleteEntries afterSave (unusedPaths c st) := by
  unfold fetchAndParseFiles
  by_cases hc : ((classifiedList c st).count == 0) = true
  · rw [if_pos hc, if_pos hc]
  · rw [if_neg hc, if_neg hc]

theorem fetchAndParseFiles_branch (c : Collaborators) (st : SyncState) :
    (fetchAndParseFiles c st).1.branch =
      if st.branch == "" then c.fetchDefaultBranchName else st.branch := by
  unfold fetchAndParseFiles
  by_cases hc : ((classifiedList c st).count == 0) = true
  · rw [if_pos hc]
  · rw [if_neg hc]

/-- The cache-hit condition, spelled out. -/
theorem cacheHitB_true_iff (c : Collaborators) (st : SyncState) :
    cacheHitB c st = true ↔
      (∃ h, st.lastCommitHashMeta = some h ∧ h ≠ "" ∧ h = c.fetchLastCommitHash) ∧
      st.fileCache ≠ [] := by
  unfold cacheHitB
  cases hm : st.lastCommitHashMeta with
  | none => simp
  | some h =>
      cases st.fileCache with
      | nil => simp
      | cons x xs =>
          simp only [Bool.and_eq_true, bne_iff_ne, beq_iff_eq, List.isEmpty_cons,
            Bool.not_false, and_true, ne_eq, Option.some.injEq]
          constructor
          · rintro ⟨hne, heq⟩
            exact ⟨⟨h, rfl, hne, heq⟩, by intro hcontra; cases hcontra⟩
          · rintro ⟨⟨h', hh', hne, heq⟩, _⟩
            cases hh'
            exact ⟨hne, heq⟩

theorem listFiles_mem_iff (c : Collaborators) (st : SyncState) :
    SyncEvent.listFiles ∈ (fetchAndParseFiles c st).2 ↔ cacheHitB c st = false := by
  rw [fetchAndParseFiles_events]
  by_cases hb : (st.branch == "") = true <;>
    by_cases hh : cacheHitB c st = true <;>
      by_cases hc : ((classifiedList c st).count == 0) = true <;>
        by_cases hf : (fetchingFiles c st).isEmpty = true <;>
          by_cases hu : (unusedPaths c st).isEmpty = true <;>
            simp [hb, hh, hc, hf, hu]

/-! ## Claims about the orchestrator: listing decision, GC, hash persistence,
empty-list short-circuit -/

/-- Collaborators resolving an empty-string commit hash. -/
def collabEmptyHash : Collaborators :=
  { fetchDefaultBranchName := "main", fetchLastCommitHash := "",
    fetchFileList := [], fetchFileContents := fun _ => [],
    allEntryFolders := [], allAssetFolders := [] }

/-- State whose cached hash is the (empty) resolved hash, with a non-empty
file cache. -/
def stateEmptyHash : SyncState :=
  { branch := "main", lastCommitHashMeta := some "", fileCache := [("x", {})],
    allEntries := none, allAssets := none, dataLoaded := false }

/-- C1 (counterexample): the cached hash equals the freshly resolved hash
(both are `""`) and the cache is non-empty, yet the remote listing is called,
because the code's condition `cachedHash && cachedHash === lastHash &&
cachedFileEntries.length` also requires the cached hash to be truthy. -/
theorem C1_counterexample :
    stateEmptyHash.lastCommitHashMeta = some collabEmptyHash.fetchLastCommitHash ∧
    stateEmptyHash.fileCache ≠ [] ∧
    SyncEvent.listFiles ∈ (fetchAndParseFiles collabEmptyHash stateEmptyHash).2 := by
  refine ⟨rfl, by decide, ?_⟩
  rw [listFiles_mem_iff]
  decide

/-- C1 (amended): the remote listing collaborator is called iff it is NOT the
case that a *truthy* (present, non-empty) cached hash equals the freshly
resolved commit hash with a non-empty file cache; and when it is not called,
the classified file list is computed entirely from the cached records. -/
theorem C1_listing_call_iff (c : Collaborators) (st : SyncState) :
    (SyncEvent.listFiles ∈ (fetchAndParseFiles c st).2 ↔
      ¬((∃ h, st.lastCommitHashMeta = some h ∧ h ≠ "" ∧ h = c.fetchLastCommitHash) ∧
        st.fileCache ≠ [])) ∧
    (SyncEvent.listFiles ∉ (fetchAndParseFiles c st).2 →
      classifiedList c st =
        createFileList c.allEntryFolders c.allAssetFolders
          (st.fileCache.map fun pr => recordToItem pr.1 pr.2)) := by
  constructor
  · rw [listFiles_mem_iff]
    constructor
    · intro hfalse hcond
      rw [(cacheHitB_true_iff c st).mpr hcond] at hfalse
      cases hfalse
    · intro hncond
      cases hh : cacheHitB c st with
      | false => rfl
      | true => exact absurd ((cacheHitB_true_iff c st).mp hh) hncond
  · intro hnot
    rw [listFiles_mem_iff] at hnot
    have hh : cacheHitB c st = true := by
      cases h : cacheHitB c st with
      | true => rfl
      | false => exact absurd h hnot
    unfold classifiedList rawFileList
    rw [if_pos hh]

/-- Collaborators/state for a cache-hit run. -/
def collabHit : Collaborators :=
  { fetchDefaultBranchName := "main", fetchLastCommitHash := "h1",
    fetchFileList := [], fetchFileContents := fun _ => [],
    allEntryFolders := [], allAssetFolders := [] }

/-- A fully-cached state matching `collabHit`. -/
def stateHit : SyncState :=
  { branch := "main", lastCommitHashMeta := some "h1",
    fileCache := [("x", { sha := some "s", meta := some "m" })],
    allEntries := none, allAssets := none, dataLoaded := false }

/-- C1 (witness): on a cache hit no listing call happens and the classified
list comes from the cached records. -/
theorem C1_witness :
    SyncEvent.listFiles ∉ (fetchAndParseFiles collabHit stateHit).2 ∧
    classifiedList collabHit stateHit =
      createFileList collabHit.allEntryFolders collabHit.allAssetFolders
        (stateHit.fileCache.map fun pr => recordToItem pr.1 pr.2) := by
  have h := C1_listing_call_iff collabHit stateHit
  have hnot : SyncEvent.listFiles ∉ (fetchAndParseFiles collabHit stateHit).2 := by
    rw [h.1]
    intro hc
    exact hc ⟨⟨"h1", rfl, by decide, rfl⟩, by decide⟩
  exact ⟨hnot, h.2 hnot⟩

/-- C5 (amended): on every sync whose classified file list is non-empty,
every previously cached path absent from the current unified list is deleted
from the cache store. -/
theorem C5_cache_gc (c : Collaborators) (st : SyncState)
    (hcount : (classifiedList c st).count ≠ 0) :
    ∀ p ∈ st.fileCache.map Prod.fst, p ∉ usedPaths c st →
      cacheLookup (fetchAndParseFiles c st).1.fileCache p = none := by
  intro p hp hpnot
  have hc : ((classifiedList c st).count == 0) = false :=
    beq_eq_false_iff_ne.mpr hcount
  rw [fetchAndParseFiles_fileCache, hc]
  have hpu : p ∈ unusedPaths c st := by
    unfold unusedPaths
    rw [List.mem_filter]
    refine ⟨hp, ?_⟩
    cases hcon : (usedPaths c st).contains p with
    | false => rfl
    | true => exact absurd (contains_iff_mem.mp hcon) hpnot
  have hne : (unusedPaths c st).isEmpty = false := by
    cases hu : unusedPaths c st with
    | nil => rw [hu] at hpu; cases hpu
    | cons y ys => rfl
  rw [hne]
  simp only [Bool.false_eq_true, if_false]
  exact cacheLookup_deleteEntries_mem _ _ p hpu

/-- Collaborators for the empty-listing GC counterexample. -/
def collabStale : Collaborators :=
  { fetchDefaultBranchName := "main", fetchLastCommitHash := "h3",
    fetchFileList := [], fetchFileContents := fun _ => [],
    allEntryFolders := [], allAssetFolders := [] }

/-- State with a cached record for a path that no longer exists remotely. -/
def stateStale : SyncState :=
  { branch := "main", lastCommitHashMeta := none, fileCache := [("x", {})],
    allEntries := none, allAssets := none, dataLoaded := false }

/-- C5 (counterexample): the remote listing is now empty, so the previously
cached path `x` is absent from the current unified file list — but the sync
completes through the empty-list short-circuit, which returns before the
garbage-collection step, and the stale record survives. -/
theorem C5_counterexample :
    "x" ∈ stateStale.fileCache.map Prod.fst ∧
    (classifiedList collabStale stateStale).allFiles = [] ∧
    cacheLookup (fetchAndParseFiles collabStale stateStale).1.fileCache "x"
      = some {} := by
  refine ⟨by decide, by decide, ?_⟩
  have hc : ((classifiedList collabStale stateStale).count == 0) = true := by decide
  rw [fetchAndParseFiles_fileCache, hc]
  decide

/-- Collaborators for the GC witness: one remote entry file, nothing to
return from the content fetch. -/
def collabGcW : Collaborators :=
  { fetchDefaultBranchName := "main", fetchLastCommitHash := "h4",
    fetchFileList := [{ path := "content/posts/a.md", sha := some "s1" }],
    fetchFileContents := fun _ => [],
    allEntryFolders := [⟨none, some "content/posts", "md"⟩],
    allAssetFolders := [] }

/-- State holding one stale cache record for the GC witness. -/
def stateGcW : SyncState :=
  { branch := "main", lastCommitHashMeta := some "old",
    fileCache := [("gone.txt", { sha := some "g" })],
    allEntries := none, allAssets := none, dataLoaded := false }

/-- C5 (witness): a stale cached path is removed by a sync with a non-empty
classified list. -/
theorem C5_witness :
    (classifiedList collabGcW stateGcW).count ≠ 0 ∧
    cacheLookup (fetchAndParseFiles collabGcW stateGcW).1.fileCache "gone.txt"
      = none := by
  have h := C5_cache_gc collabGcW stateGcW (by decide)
  exact ⟨by decide, h "gone.txt" (by decide) (by decide)⟩

/-- C7: on every full-refresh run, the resolved hash is written to the
sync-metadata store immediately after the remote listing and before any
content-fetch call, and it ends up persisted in the final state. -/
theorem C7_hash_persisted (c : Collaborators) (st : SyncState)
    (h : cacheHitB c st = false) :
    ∃ pre post,
      (fetchAndParseFiles c st).2
        = pre ++ [SyncEvent.listFiles, SyncEvent.setMetaHash c.fetchLastCommitHash]
            ++ post ∧
      (∀ ps, SyncEvent.fetchContents ps ∉ pre) ∧
      (fetchAndParseFiles c st).1.lastCommitHashMeta = some c.fetchLastCommitHash := by
  rw [fetchAndParseFiles_events, h]
  refine ⟨(if st.branch == "" then [SyncEvent.fetchDefaultBranch] else [])
      ++ [SyncEvent.fetchLastCommitHash],
    (if (classifiedList c st).count == 0 then [SyncEvent.publish]
     else
       (if (fetchingFiles c st).isEmpty then []
        else [SyncEvent.fetchContents
          ((fetchingFiles c st).map fun it => it.file.path)])
       ++ [SyncEvent.publish]
       ++ (if (fetchingFiles c st).isEmpty then []
           else [SyncEvent.saveCacheEntries (fetchedFileMap c st)])
       ++ (if (unusedPaths c st).isEmpty then []
           else [SyncEvent.deleteCacheEntries (unusedPaths c st)])), ?_, ?_, ?_⟩
  · simp [List.append_assoc]
  · intro ps
    by_cases hb : (st.branch == "") = true <;> simp [hb]
  · rw [fetchAndParseFiles_lastCommitHashMeta, h]
    simp

/-- Collaborators/state for the full-refresh witness (no cached hash). -/
def collabFreshW : Collaborators :=
  { fetchDefaultBranchName := "main", fetchLastCommitHash := "h2",
    fetchFileList := [], fetchFileContents := fun _ => [],
    allEntryFolders := [], allAssetFolders := [] }

/-- A fresh state with empty cache and no recorded hash. -/
def stateFreshW : SyncState :=
  { branch := "", lastCommitHashMeta := none, fileCache := [],
    allEntries := none, allAssets := none, dataLoaded := false }

/-- C7 (witness): on a fresh sync the hash write follows the listing and
precedes any content fetch. -/
theorem C7_witness :
    ∃ pre post,
      (fetchAndParseFiles collabFreshW stateFreshW).2
        = pre ++ [SyncEvent.listFiles,
            SyncEvent.setMetaHash collabFreshW.fetchLastCommitHash] ++ post ∧
      (∀ ps, SyncEvent.fetchContents ps ∉ pre) ∧
      (fetchAndParseFiles collabFreshW stateFreshW).1.lastCommitHashMeta
        = some collabFreshW.fetchLastCommitHash :=
  C7_hash_persisted collabFreshW stateFreshW (by decide)

/-- C9: when the classified file list is empty, the sync publishes empty
entry and asset outputs, sets the load-complete flag, and stops without any
content-fetch call and without touching the file cache — a valid terminal
state. -/
theorem C9_empty_list (c : Collaborators) (st : SyncState)
    (h : (classifiedList c st).count = 0) :
    (fetchAndParseFiles c st).1.allEntries = some [] ∧
    (fetchAndParseFiles c st).1.allAssets = some [] ∧
    (fetchAndParseFiles c st).1.dataLoaded = true ∧
    (∀ ps, SyncEvent.fetchContents ps ∉ (fetchAndParseFiles c st).2) ∧
    (∀ es, SyncEvent.saveCacheEntries es ∉ (fetchAndParseFiles c st).2) ∧
    (∀ ps, SyncEvent.deleteCacheEntries ps ∉ (fetchAndParseFiles c st).2) := by
  have hc : ((classifiedList c st).count == 0) = true := by
    rw [h]
    rfl
  refine ⟨?_, ?_, fetchAndParseFiles_dataLoaded c st, ?_, ?_, ?_⟩
  · rw [fetchAndParseFiles_allEntries, hc]
    rfl
  · rw [fetchAndParseFiles_allAssets, hc]
    rfl
  · intro ps
    rw [fetchAndParseFiles_events]
    by_cases hb : (st.branch == "") = true <;>
      by_cases hh : cacheHitB c st = true <;> simp [hb, hh, hc]
  · intro es
    rw [fetchAndParseFiles_events]
    by_cases hb : (st.branch == "") = true <;>
      by_cases hh : cacheHitB c st = true <;> simp [hb, hh, hc]
  · intro ps
    rw [fetchAndParseFiles_events]
    by_cases hb : (st.branch == "") = true <;>
      by_cases hh : cacheHitB c st = true <;> simp [hb, hh, hc]

/-- Collaborators for the empty-repository witness. -/
def collabEmptyRepo : Collaborators :=
  { fetchDefaultBranchName := "main", fetchLastCommitHash := "h5",
    fetchFileList := [], fetchFileContents := fun _ => [],
    allEntryFolders := [], allAssetFolders := [] }

/-- A fresh state for the empty-repository witness. -/
def stateEmptyRepo : SyncState :=
  { branch := "", lastCommitHashMeta := none, fileCache := [],
    allEntries := none, allAssets := none, dataLoaded := false }

/-- C9 (witness): an empty remote repository publishes empty outputs and
completes. -/
theorem C9_witness :
    (classifiedList collabEmptyRepo stateEmptyRepo).count = 0 ∧
    (fetchAndParseFiles collabEmptyRepo stateEmptyRepo).1.allEntries = some [] ∧
    (fetchAndParseFiles collabEmptyRepo stateEmptyRepo).1.allAssets = some [] ∧
    (fetchAndParseFiles collabEmptyRepo stateEmptyRepo).1.dataLoaded = true := by
  have h0 : (classifiedList collabEmptyRepo stateEmptyRepo).count = 0 := by decide
  have h := C9_empty_list collabEmptyRepo stateEmptyRepo h0
  exact ⟨h0, h.1, h.2.1, h.2.2.1⟩

/-! ## Cache upsert of freshly fetched files (C4) -/

theorem restoredAllFiles_length (c : Collaborators) (st : SyncState) :
    (restoredAllFiles c st).length = (classifiedList c st).count := by
  unfold restoredAllFiles restoredEntryFiles restoredAssetFiles
  have : (classifiedList c st).count
      = ((classifiedList c st).entryFiles ++ (classifiedList c st).assetFiles).length := by
    unfold classifiedList createFileList
    simp
  rw [this]
  simp

theorem fetching_path_used (c : Collaborators) (st : SyncState) (it : ClassifiedItem)
    (hmem : it ∈ fetchingFiles c st) : it.file.path ∈ usedPaths c st := by
  unfold fetchingFiles at hmem
  exact List.mem_map.mpr ⟨it, List.mem_of_mem_filter hmem, rfl⟩

theorem not_mem_unusedPaths (c : Collaborators) (st : SyncState) (p : String)
    (hp : p ∈ usedPaths c st) : p ∉ unusedPaths c st := by
  unfold unusedPaths
  intro hmem
  rcases List.mem_filter.mp hmem with ⟨_, hkeep⟩
  have : (usedPaths c st).contains p = true := contains_iff_mem.mpr hp
  rw [this] at hkeep
  exact absurd hkeep (by decide)

/-- C4: whenever the fetch delta is non-empty, the fetched map is saved to
the cache store at the end of the sync, and afterwards every fetched path
resolves to exactly the fetched `{sha, meta, text?, size?}` record — whose
`sha` is the file's content hash, under the collaborator contract that the
returned map is keyed by the requested paths with the matching hashes. -/
theorem C4_fetched_records_upserted (c : Collaborators) (st : SyncState)
    (hne : fetchingFiles c st ≠ [])
    (hnodup : ((fetchedFileMap c st).map Prod.fst).Nodup)
    (hkeys : ∀ pr ∈ fetchedFileMap c st,
      pr.1 ∈ (fetchingFiles c st).map fun it => it.file.path)
    (hsha : ∀ pr ∈ fetchedFileMap c st,
      ∃ it ∈ fetchingFiles c st, it.file.path = pr.1 ∧ pr.2.sha = it.file.sha) :
    SyncEvent.saveCacheEntries (fetchedFileMap c st) ∈ (fetchAndParseFiles c st).2 ∧
    ∀ pr ∈ fetchedFileMap c st,
      cacheLookup (fetchAndParseFiles c st).1.fileCache pr.1 = some pr.2 ∧
      ∃ it ∈ fetchingFiles c st, it.file.path = pr.1 ∧ pr.2.sha = it.file.sha := by
  have hf : (fetchingFiles c st).isEmpty = false := by
    cases hl : fetchingFiles c st with
    | nil => exact absurd hl hne
    | cons x xs => rfl
  have hcount : ((classifiedList c st).count == 0) = false := by
    cases hc : ((classifiedList c st).count == 0) with
    | false => rfl
    | true =>
        have h0 : (classifiedList c st).count = 0 := beq_iff_eq.mp hc
        have hlen : (restoredAllFiles c st).length = 0 := by
          rw [restoredAllFiles_length, h0]
        have hnil : restoredAllFiles c st = [] := List.length_eq_zero.mp hlen
        have : fetchingFiles c st = [] := by
          unfold fetchingFiles
          rw [hnil]
          rfl
        exact absurd this hne
  constructor
  · rw [fetchAndParseFiles_events]
    by_cases hb : (st.branch == "") = true <;>
      by_cases hh : cacheHitB c st = true <;>
        by_cases hu : (unusedPaths c st).isEmpty = true <;>
          simp [hb, hh, hu, hcount, hf]
  · intro pr hpr
    refine ⟨?_, hsha pr hpr⟩
    rw [fetchAndParseFiles_fileCache, hcount]
    simp only [Bool.false_eq_true, if_false, hf]
    have hsave : cacheLookup (saveEntries st.fileCache (fetchedFileMap c st)) pr.1
        = some pr.2 := cacheLookup_saveEntries_mem _ _ hnodup pr hpr
    have hused : pr.1 ∈ usedPaths c st := by
      rcases List.mem_map.mp (hkeys pr hpr) with ⟨it, hit, hpath⟩
      rw [← hpath]
      exact fetching_path_used c st it hit
    by_cases hu : (unusedPaths c st).isEmpty = true
    · rw [if_pos hu]
      exact hsave
    · rw [if_neg hu]
      rw [cacheLookup_deleteEntries_not_mem _ _ _ (not_mem_unusedPaths c st pr.1 hused)]
      exact hsave

/-- Collaborators for the fetch-upsert witness. -/
def collabFetchW : Collaborators :=
  { fetchDefaultBranchName := "main", fetchLastCommitHash := "h6",
    fetchFileList := [{ path := "content/posts/a.md", sha := some "s1" }],
    fetchFileContents := fun _ =>
      [("content/posts/a.md",
        { sha := some "s1", meta := some "m1", text := some "t" })],
    allEntryFolders := [⟨none, some "content/posts", "md"⟩],
    allAssetFolders := [] }

/-- A fresh state for the fetch-upsert witness. -/
def stateFetchW : SyncState :=
  { branch := "main", lastCommitHashMeta := none, fileCache := [],
    allEntries := none, allAssets := none, dataLoaded := false }

/-- C4 (witness): the freshly fetched record for `content/posts/a.md` is
saved and retrievable from the cache store after the sync. -/
theorem C4_witness :
    fetchingFiles collabFetchW stateFetchW ≠ [] ∧
    cacheLookup (fetchAndParseFiles collabFetchW stateFetchW).1.fileCache
        "content/posts/a.md"
      = some { sha := some "s1", meta := some "m1", text := some "t" } := by
  have h := C4_fetched_records_upserted collabFetchW stateFetchW (by decide)
    (by decide) (by decide) ?_
  · refine ⟨by decide, ?_⟩
    exact (h.2 ("content/posts/a.md",
      { sha := some "s1", meta := some "m1", text := some "t" }) (by decide)).1
  · intro pr hpr
    have hm : fetchedFileMap collabFetchW stateFetchW
        = [("content/posts/a.md",
            { sha := some "s1", meta := some "m1", text := some "t" })] := by
      decide
    rw [hm] at hpr
    rcases List.mem_singleton.mp hpr with rfl
    exact ⟨⟨{ path := "content/posts/a.md", sha := some "s1" }, .entry,
      .entry ⟨none, some "content/posts", "md"⟩⟩, by decide, by decide, by decide⟩

/-! ## Idempotence infrastructure (C6) -/

theorem classifiedList_count (c : Collaborators) (st : SyncState) :
    (classifiedList c st).count =
      ((classifiedList c st).entryFiles ++ (classifiedList c st).assetFiles).length := by
  unfold classifiedList createFileList
  simp

theorem mergeEntryFile_nil (it : ClassifiedItem) : mergeEntryFile [] it = it := by
  obtain ⟨⟨p, sh, me, tx, sz⟩, ty, cfg⟩ := it
  unfold mergeEntryFile objLookup
  cases tx <;> cases me <;> simp [jsNullish]

theorem mergeAssetFile_nil (it : ClassifiedItem) :
    mergeAssetFile [] it = ⟨it, fileNameOf it.file.path⟩ := by
  obtain ⟨⟨p, sh, me, tx, sz⟩, ty, cfg⟩ := it
  unfold mergeAssetFile objLookup
  cases tx <;> cases me <;> cases sz <;> simp [jsNullish]

theorem restoreCached_recordToItem (cache : List (String × CacheRecord))
    (hnodup : (cache.map Prod.fst).Nodup) (p : String) (r : CacheRecord)
    (hmem : (p, r) ∈ cache) (it : ClassifiedItem)
    (hfile : it.file = recordToItem p r) :
    restoreCached cache it = it := by
  obtain ⟨f, ty, cfg⟩ := it
  simp only at hfile
  subst hfile
  unfold restoreCached
  simp only [recordToItem]
  rw [objLookup_nodup hnodup hmem]
  simp [recordToItem]

/-- On a cache hit, every classified entry descriptor comes from a cache
record. -/
theorem entry_file_from_cache (c : Collaborators) (st : SyncState)
    (hhit : cacheHitB c st = true) (it : ClassifiedItem)
    (hmem : it ∈ (classifiedList c st).entryFiles) :
    ∃ pr ∈ st.fileCache, it.file = recordToItem pr.1 pr.2 := by
  unfold classifiedList at hmem
  rw [createFileList_entryFiles] at hmem
  rcases List.mem_filterMap.mp hmem with ⟨x, hx, hsome⟩
  unfold rawFileList at hx
  rw [if_pos hhit] at hx
  rcases List.mem_map.mp hx with ⟨pr, hpr, hxeq⟩
  exact ⟨pr, hpr, by rw [entryItem?_path _ _ _ hsome, ← hxeq]⟩

theorem asset_file_from_cache (c : Collaborators) (st : SyncState)
    (hhit : cacheHitB c st = true) (it : ClassifiedItem)
    (hmem : it ∈ (classifiedList c st).assetFiles) :
    ∃ pr ∈ st.fileCache, it.file = recordToItem pr.1 pr.2 := by
  unfold classifiedList at hmem
  rw [createFileList_assetFiles] at hmem
  rcases List.mem_filterMap.mp hmem with ⟨x, hx, hsome⟩
  unfold rawFileList at hx
  rw [if_pos hhit] at hx
  rcases List.mem_map.mp hx with ⟨pr, hpr, hxeq⟩
  exact ⟨pr, hpr, by rw [assetItem?_path _ _ _ _ hsome, ← hxeq]⟩

/-- On a cache hit with unique cache keys, the cache-restore loop is the
identity. -/
theorem restored_id_of_hit (c : Collaborators) (st : SyncState)
    (hhit : cacheHitB c st = true)
    (hnodup : (st.fileCache.map Prod.fst).Nodup) :
    restoredEntryFiles c st = (classifiedList c st).entryFiles ∧
    restoredAssetFiles c st = (classifiedList c st).assetFiles := by
  constructor
  · unfold restoredEntryFiles
    apply map_eq_self_of
    intro it hit
    rcases entry_file_from_cache c st hhit it hit with ⟨⟨p, r⟩, hpr, hfile⟩
    exact restoreCached_recordToItem _ hnodup p r hpr it hfile
  · unfold restoredAssetFiles
    apply map_eq_self_of
    intro it hit
    rcases asset_file_from_cache c st hhit it hit with ⟨⟨p, r⟩, hpr, hfile⟩
    exact restoreCached_recordToItem _ hnodup p r hpr it hfile

/-- On a fully-cached hit, the fetch delta is empty and the published outputs
are exactly the classified lists. -/
theorem hit_run_outputs (c : Collaborators) (st : SyncState)
    (hhit : cacheHitB c st = true)
    (hnodup : (st.fileCache.map Prod.fst).Nodup)
    (hmeta : ∀ pr ∈ st.fileCache, pr.2.meta.isSome = true) :
    fetchingFiles c st = [] ∧
    publishedEntries c st = (classifiedList c st).entryFiles ∧
    publishedAssets c st = (classifiedList c st).assetFiles.map
      (fun it => ⟨it, fileNameOf it.file.path⟩) ∧
    usedPaths c st = ((classifiedList c st).entryFiles
        ++ (classifiedList c st).assetFiles).map fun it => it.file.path := by
  obtain ⟨hRE, hRA⟩ := restored_id_of_hit c st hhit hnodup
  have hmetaItem : ∀ it ∈ (classifiedList c st).entryFiles
      ++ (classifiedList c st).assetFiles, (it.file.meta == none) = false := by
    intro it hit
    have hfc : ∃ pr ∈ st.fileCache, it.file = recordToItem pr.1 pr.2 := by
      rcases List.mem_append.mp hit with h | h
      · exact entry_file_from_cache c st hhit it h
      · exact asset_file_from_cache c st hhit it h
    rcases hfc with ⟨pr, hpr, hfile⟩
    have hm := hmeta pr hpr
    rw [hfile]
    cases hme : pr.2.meta with
    | none => rw [hme] at hm; cases hm
    | some m => simp [recordToItem, hme]
  have hfetch : fetchingFiles c st = [] := by
    unfold fetchingFiles restoredAllFiles
    rw [hRE, hRA, List.filter_eq_nil_iff]
    intro it hit
    rw [hmetaItem it hit]
    exact Bool.false_ne_true
  have hfmap : fetchedFileMap c st = [] := by
    unfold fetchedFileMap
    rw [hfetch]
    rfl
  refine ⟨hfetch, ?_, ?_, ?_⟩
  · unfold publishedEntries
    rw [hfmap, hRE]
    exact map_eq_self_of _ _ fun it _ => mergeEntryFile_nil it
  · unfold publishedAssets
    rw [hfmap, hRA]
    exact List.map_congr_left fun it _ => mergeAssetFile_nil it
  · unfold usedPaths restoredAllFiles
    rw [hRE, hRA]

theorem no_fetch_events_of_empty (c : Collaborators) (st : SyncState)
    (hf : fetchingFiles c st = []) :
    ∀ ps, SyncEvent.fetchContents ps ∉ (fetchAndParseFiles c st).2 := by
  have hf' : (fetchingFiles c st).isEmpty = true := by rw [hf]; rfl
  intro ps
  rw [fetchAndParseFiles_events]
  by_cases hb : (st.branch == "") = true <;>
    by_cases hh : cacheHitB c st = true <;>
      by_cases hc : ((classifiedList c st).count == 0) = true <;>
        by_cases hu : (unusedPaths c st).isEmpty = true <;>
          simp [hb, hh, hc, hu, hf']

/-- The sync computation reads the state only through the cached hash and the
file cache. -/
theorem sync_depends_on_cache (c : Collaborators) (st st' : SyncState)
    (hm : st'.lastCommitHashMeta = st.lastCommitHashMeta)
    (hf : st'.fileCache = st.fileCache) :
    cacheHitB c st' = cacheHitB c st ∧
    classifiedList c st' = classifiedList c st ∧
    fetchingFiles c st' = fetchingFiles c st ∧
    publishedEntries c st' = publishedEntries c st ∧
    publishedAssets c st' = publishedAssets c st ∧
    usedPaths c st' = usedPaths c st := by
  have h1 : cacheHitB c st' = cacheHitB c st := by
    unfold cacheHitB
    rw [hm, hf]
  have h2 : rawFileList c st' = rawFileList c st := by
    unfold rawFileList
    rw [h1, hf]
  have h3 : classifiedList c st' = classifiedList c st := by
    unfold classifiedList
    rw [h2]
  have h4 : restoredEntryFiles c st' = restoredEntryFiles c st := by
    unfold restoredEntryFiles
    rw [h3, hf]
  have h5 : restoredAssetFiles c st' = restoredAssetFiles c st := by
    unfold restoredAssetFiles
    rw [h3, hf]
  have h6 : restoredAllFiles c st' = restoredAllFiles c st := by
    unfold restoredAllFiles
    rw [h4, h5]
  have h7 : fetchingFiles c st' = fetchingFiles c st := by
    unfold fetchingFiles
    rw [h6]
  have h8 : fetchedFileMap c st' = fetchedFileMap c st := by
    unfold fetchedFileMap
    rw [h7]
  have h9 : publishedEntries c st' = publishedEntries c st := by
    unfold publishedEntries
    rw [h4, h8]
  have h10 : publishedAssets c st' = publishedAssets c st := by
    unfold publishedAssets
    rw [h5, h8]
  have h11 : usedPaths c st' = usedPaths c st := by
    unfold usedPaths
    rw [h6]
  exact ⟨h1, h3, h7, h9, h10, h11⟩

theorem filterMap_filter_of_isSome {α β : Type} (g : α → Option β) (k : α → Bool)
    (l : List α) (h : ∀ x ∈ l, (g x).isSome = true → k x = true) :
    (l.filter k).filterMap g = l.filterMap g := by
  induction l with
  | nil => rfl
  | cons x xs ih =>
      have ih' := ih fun y hy => h y (List.mem_cons_of_mem x hy)
      by_cases hk : k x = true
      · rw [List.filter_cons_of_pos hk, List.filterMap_cons, List.filterMap_cons]
        cases g x <;> rw [ih']
      · have hg : g x = none := by
          cases hgx : g x with
          | none => rfl
          | some b =>
              exact absurd (h x (List.mem_cons_self x xs) (by rw [hgx]; rfl)) hk
        rw [List.filter_cons_of_neg (by simpa using hk), List.filterMap_cons, hg, ih']

/-- After a fully-cached hit run with a non-empty classified list, the cache
store holds exactly the previously cached entries whose path is still in
use. -/
theorem fileCache_after_hit_run (c : Collaborators) (st : SyncState)
    (hfetch : fetchingFiles c st = [])
    (hc0 : ((classifiedList c st).count == 0) = false) :
    (fetchAndParseFiles c st).1.fileCache
      = st.fileCache.filter fun x => (usedPaths c st).contains x.1 := by
  have hf' : (fetchingFiles c st).isEmpty = true := by rw [hfetch]; rfl
  rw [fetchAndParseFiles_fileCache, hc0]
  simp only [Bool.false_eq_true, if_false, hf', if_true]
  by_cases hu : (unusedPaths c st).isEmpty = true
  · rw [if_pos hu]
    symm
    rw [List.filter_eq_self]
    intro x hx
    cases hcon : (usedPaths c st).contains x.1 with
    | true => rfl
    | false =>
        have hxu : x.1 ∈ unusedPaths c st := by
          unfold unusedPaths
          rw [List.mem_filter]
          exact ⟨List.mem_map.mpr ⟨x, hx, rfl⟩, by rw [hcon]; rfl⟩
        cases hL : unusedPaths c st with
        | nil => rw [hL] at hxu; cases hxu
        | cons y ys => rw [hL] at hu; cases hu
  · rw [if_neg hu]
    unfold deleteEntries
    apply List.filter_congr
    intro x hx
    cases hcon : (usedPaths c st).contains x.1 with
    | true =>
        have hnc : (unusedPaths c st).contains x.1 = false := by
          cases hc2 : (unusedPaths c st).contains x.1 with
          | false => rfl
          | true =>
              have hxu := contains_iff_mem.mp hc2
              unfold unusedPaths at hxu
              rcases List.mem_filter.mp hxu with ⟨_, hkeep⟩
              rw [hcon] at hkeep
              exact absurd hkeep (by decide)
        rw [hnc]
        rfl
    | false =>
        have hxu : x.1 ∈ unusedPaths c st := by
          unfold unusedPaths
          rw [List.mem_filter]
          exact ⟨List.mem_map.mpr ⟨x, hx, rfl⟩, by rw [hcon]; rfl⟩
        rw [contains_iff_mem.mpr hxu]
        rfl

/-- C6: against an unchanged remote state and a fully-populated cache (cached
hash present and equal to the resolved hash, every listed record carrying its
metadata, cache keys unique), two consecutive syncs publish identical entry
and asset outputs and make zero content-fetch calls. -/
theorem C6_idempotent_syncs (c : Collaborators) (st : SyncState)
    (hhash : st.lastCommitHashMeta = some c.fetchLastCommitHash)
    (hne : c.fetchLastCommitHash ≠ "")
    (hcache : st.fileCache ≠ [])
    (hnodup : (st.fileCache.map Prod.fst).Nodup)
    (hmeta : ∀ pr ∈ st.fileCache, pr.2.meta.isSome = true) :
    ((fetchAndParseFiles c (fetchAndParseFiles c st).1).1.allEntries
      = (fetchAndParseFiles c st).1.allEntries) ∧
    ((fetchAndParseFiles c (fetchAndParseFiles c st).1).1.allAssets
      = (fetchAndParseFiles c st).1.allAssets) ∧
    (∀ ps, SyncEvent.fetchContents ps ∉ (fetchAndParseFiles c st).2) ∧
    (∀ ps, SyncEvent.fetchContents ps
      ∉ (fetchAndParseFiles c (fetchAndParseFiles c st).1).2) := by
  have hhit : cacheHitB c st = true :=
    (cacheHitB_true_iff c st).mpr ⟨⟨c.fetchLastCommitHash, hhash, hne, rfl⟩, hcache⟩
  obtain ⟨hfetch, hpubE, hpubA, hused⟩ := hit_run_outputs c st hhit hnodup hmeta
  have hnofetch1 := no_fetch_events_of_empty c st hfetch
  have hm1 : (fetchAndParseFiles c st).1.lastCommitHashMeta = st.lastCommitHashMeta := by
    rw [fetchAndParseFiles_lastCommitHashMeta, if_pos hhit]
  by_cases hc0 : ((classifiedList c st).count == 0) = true
  · -- empty terminal state both times
    have hf1 : (fetchAndParseFiles c st).1.fileCache = st.fileCache := by
      rw [fetchAndParseFiles_fileCache, hc0]
      simp
    obtain ⟨hd1, hd2, hd3, hd4, hd5, hd6⟩ :=
      sync_depends_on_cache c st (fetchAndParseFiles c st).1 hm1 hf1
    have hc0' : ((classifiedList c (fetchAndParseFiles c st).1).count == 0) = true := by
      rw [hd2]
      exact hc0
    refine ⟨?_, ?_, hnofetch1, ?_⟩
    · rw [fetchAndParseFiles_allEntries, if_pos hc0',
        fetchAndParseFiles_allEntries, if_pos hc0]
    · rw [fetchAndParseFiles_allAssets, if_pos hc0',
        fetchAndParseFiles_allAssets, if_pos hc0]
    · exact no_fetch_events_of_empty c _ (by rw [hd3]; exact hfetch)
  · -- non-empty classified list
    have hc0f : ((classifiedList c st).count == 0) = false := Bool.eq_false_iff.mpr hc0
    have hf1 : (fetchAndParseFiles c st).1.fileCache
        = st.fileCache.filter fun x => (usedPaths c st).contains x.1 :=
      fileCache_after_hit_run c st hfetch hc0f
    have hnodup1 : ((fetchAndParseFiles c st).1.fileCache.map Prod.fst).Nodup := by
      rw [hf1]
      exact ((List.filter_sublist _).map Prod.fst).nodup hnodup
    have hmeta1 : ∀ pr ∈ (fetchAndParseFiles c st).1.fileCache,
        pr.2.meta.isSome = true := by
      rw [hf1]
      intro pr hpr
      exact hmeta pr (List.mem_of_mem_filter hpr)
    have hm1' : (fetchAndParseFiles c st).1.lastCommitHashMeta
        = some c.fetchLastCommitHash := by
      rw [hm1, hhash]
    -- the classified list is non-empty, so at least one cached path stays used
    have hexists : ∃ it, it ∈ (classifiedList c st).entryFiles
        ++ (classifiedList c st).assetFiles := by
      cases hl : (classifiedList c st).entryFiles ++ (classifiedList c st).assetFiles with
      | cons y ys => exact ⟨y, hl ▸ List.mem_cons_self y ys⟩
      | nil =>
          have h0 : (classifiedList c st).count = 0 := by
            rw [classifiedList_count, hl]
            rfl
          rw [h0] at hc0f
          exact absurd hc0f (by decide)
    obtain ⟨it0, hit0⟩ := hexists
    have hcache1 : (fetchAndParseFiles c st).1.fileCache ≠ [] := by
      have hfc : ∃ pr ∈ st.fileCache, it0.file = recordToItem pr.1 pr.2 := by
        rcases List.mem_append.mp hit0 with h | h
        · exact entry_file_from_cache c st hhit it0 h
        · exact asset_file_from_cache c st hhit it0 h
      rcases hfc with ⟨pr, hpr, hfile⟩
      have hpused : pr.1 ∈ usedPaths c st := by
        rw [hused]
        exact List.mem_map.mpr ⟨it0, hit0, by rw [hfile]; rfl⟩
      have hmem1 : pr ∈ (fetchAndParseFiles c st).1.fileCache := by
        rw [hf1]
        exact List.mem_filter.mpr ⟨hpr, contains_iff_mem.mpr hpused⟩
      intro hnil
      rw [hnil] at hmem1
      cases hmem1
    have hhit1 : cacheHitB c (fetchAndParseFiles c st).1 = true :=
      (cacheHitB_true_iff c _).mpr
        ⟨⟨c.fetchLastCommitHash, hm1', hne, rfl⟩, hcache1⟩
    have hraw1 : rawFileList c (fetchAndParseFiles c st).1
        = (rawFileList c st).filter fun y => (usedPaths c st).contains y.path := by
      unfold rawFileList
      rw [if_pos hhit1, if_pos hhit, hf1, List.filter_map]
      rfl
    have hentry2 : (classifiedList c (fetchAndParseFiles c st).1).entryFiles
        = (classifiedList c st).entryFiles := by
      unfold classifiedList
      rw [createFileList_entryFiles, createFileList_entryFiles, hraw1]
      apply filterMap_filter_of_isSome
      intro x hx hsome
      rcases Option.isSome_iff_exists.mp hsome with ⟨it, hit⟩
      have hmem1 : it ∈ (classifiedList c st).entryFiles := by
        unfold classifiedList
        rw [createFileList_entryFiles]
        exact List.mem_filterMap.mpr ⟨x, hx, hit⟩
      have hpath : it.file.path ∈ usedPaths c st := by
        rw [hused]
        exact List.mem_map.mpr ⟨it, List.mem_append.mpr (Or.inl hmem1), rfl⟩
      have hfe := entryItem?_path _ x it hit
      rw [hfe] at hpath
      exact contains_iff_mem.mpr hpath
    have hasset2 : (classifiedList c (fetchAndParseFiles c st).1).assetFiles
        = (classifiedList c st).assetFiles := by
      unfold classifiedList
      rw [createFileList_assetFiles, createFileList_assetFiles, hraw1]
      apply filterMap_filter_of_isSome
      intro x hx hsome
      rcases Option.isSome_iff_exists.mp hsome with ⟨it, hit⟩
      have hmem1 : it ∈ (classifiedList c st).assetFiles := by
        unfold classifiedList
        rw [createFileList_assetFiles]
        exact List.mem_filterMap.mpr ⟨x, hx, hit⟩
      have hpath : it.file.path ∈ usedPaths c st := by
        rw [hused]
        exact List.mem_map.mpr ⟨it, List.mem_append.mpr (Or.inr hmem1), rfl⟩
      have hfe := assetItem?_path _ _ x it hit
      rw [hfe] at hpath
      exact contains_iff_mem.mpr hpath
    have hcount2 : (classifiedList c (fetchAndParseFiles c st).1).count
        = (classifiedList c st).count := by
      rw [classifiedList_count, classifiedList_count, hentry2, hasset2]
    have hc0f' : ((classifiedList c (fetchAndParseFiles c st).1).count == 0) = false := by
      rw [hcount2]
      exact hc0f
    obtain ⟨hfetch1, hpubE1, hpubA1, hused1⟩ :=
      hit_run_outputs c (fetchAndParseFiles c st).1 hhit1 hnodup1 hmeta1
    refine ⟨?_, ?_, hnofetch1, no_fetch_events_of_empty c _ hfetch1⟩
    · rw [fetchAndParseFiles_allEntries, fetchAndParseFiles_allEntries, hc0f, hc0f']
      simp only [Bool.false_eq_true, if_false]
      rw [hpubE1, hpubE, hentry2]
    · rw [fetchAndParseFiles_allAssets, fetchAndParseFiles_allAssets, hc0f, hc0f']
      simp only [Bool.false_eq_true, if_false]
      rw [hpubA1, hpubA, hasset2]

/-- Collaborators for the idempotence witness. -/
def collabIdem : Collaborators :=
  { fetchDefaultBranchName := "main", fetchLastCommitHash := "h9",
    fetchFileList := [], fetchFileContents := fun _ => [],
    allEntryFolders := [⟨none, some "content/posts", "md"⟩],
    allAssetFolders := [] }

/-- A fully-populated cache state matching `collabIdem`. -/
def stateIdem : SyncState :=
  { branch := "main", lastCommitHashMeta := some "h9",
    fileCache := [("content/posts/a.md",
      { sha := some "s", meta := some "m", text := some "t" })],
    allEntries := none, allAssets := none, dataLoaded := false }

/-- C6 (witness): two consecutive syncs against the unchanged fully-cached
state publish identical outputs and never call the content fetcher. -/
theorem C6_witness :
    ((fetchAndParseFiles collabIdem (fetchAndParseFiles collabIdem stateIdem).1).1.allEntries
      = (fetchAndParseFiles collabIdem stateIdem).1.allEntries) ∧
    (∀ ps, SyncEvent.fetchContents ps
      ∉ (fetchAndParseFiles collabIdem stateIdem).2) := by
  have h := C6_idempotent_syncs collabIdem stateIdem rfl (by decide) (by decide)
    (by decide) (by decide)
  exact ⟨h.1, h.2.2.1⟩

/-! ## i18n configuration (`src/lib/services/contents/i18n.js`)

`getI18nConfig` reads the `siteConfig` store and — when both the site-level
and the collection-level `i18n` values are objects — mutates the shared site
i18n object through `Object.assign`. The store value is threaded explicitly:
the function returns the normalized configuration together with the site
config as it stands after the call. -/

/-- A raw `i18n` object: the four consulted keys, each possibly absent. -/
structure RawI18nConfig where
  structure_ : Option String := none
  locales : Option (List String) := none
  default_locale : Option String := none
  save_all_locales : Option Bool := none
deriving DecidableEq, Repr

/-- A JS `i18n` property value: absent/undefined, a boolean, or an object. -/
inductive I18nField where
  | absent
  | bool (b : Bool)
  | obj (c : RawI18nConfig)
deriving DecidableEq, Repr

/-- JS truthiness of an `i18n` property value (objects are always truthy). -/
def I18nField.truthy : I18nField → Bool
  | .absent => false
  | .bool b => b
  | .obj _ => true

/-- The site configuration, reduced to the field `getI18nConfig` touches. -/
structure SiteConfig where
  i18n : I18nField
deriving DecidableEq, Repr

/-- A collection, reduced to its `i18n` field. -/
structure RawCollection where
  i18n : I18nField
deriving DecidableEq, Repr

/-- A collection file, reduced to its `i18n` field. -/
structure RawCollectionFile where
  i18n : I18nField
deriving DecidableEq, Repr

/-- JS `Object.assign(target, src)` on i18n objects: every key present on the
source overwrites the target's. -/
def assignI18n (target src : RawI18nConfig) : RawI18nConfig :=
  { structure_ := jsNullish src.structure_ target.structure_,
    locales := jsNullish src.locales target.locales,
    default_locale := jsNullish src.default_locale target.default_locale,
    save_all_locales := jsNullish src.save_all_locales target.save_all_locales }

/-- The normalized i18n configuration returned by `getI18nConfig`. -/
structure I18nConfig where
  i18nEnabled : Bool
  saveAllLocales : Bool
  locales : List String
  defaultLocale : String
  structure_ : String
deriving DecidableEq, Repr

/-- The default, normalized i18n configuration with no locales defined. -/
def defaultI18nConfig : I18nConfig :=
  { i18nEnabled := false, saveAllLocales := true, locales := ["_default"],
    defaultLocale := "_default", structure_ := "single_file" }

/-- The destructuring-with-defaults and result construction at the end of
`getI18nConfig` (`config ?? {}`; `structure` forced to `single_file` when a
collection file is involved). -/
def normalizeI18n (config : Option RawI18nConfig) (hasFile : Bool) : I18nConfig :=
  let cfg := config.getD ⟨none, none, none, none⟩
  let structure_ := cfg.structure_.getD "single_file"
  let locales := cfg.locales.getD []
  let defaultLocale := cfg.default_locale
  let saveAllLocales := cfg.save_all_locales.getD true
  let i18nEnabled := !locales.isEmpty
  { i18nEnabled := i18nEnabled,
    saveAllLocales := saveAllLocales,
    locales := if i18nEnabled then locales else ["_default"],
    defaultLocale :=
      if !i18nEnabled then "_default"
      else
        match defaultLocale with
        | some d => if d != "" && locales.contains d then d else locales.headD ""
        | none => locales.headD "",
    structure_ := if hasFile then "single_file" else structure_ }

/-- Source `getI18nConfig(collection, file)`: returns the normalized configuration
and the site configuration as left behind by the call (the `Object.assign`
calls mutate the shared site i18n object). -/
def getI18nConfig (siteConfig : SiteConfig) (collection : RawCollection)
    (file : Option RawCollectionFile) : I18nConfig × SiteConfig :=
  match siteConfig.i18n with
  | .obj siteI18n =>
      if collection.i18n.truthy then
        let afterCollection :=
          match collection.i18n with
          | .obj c => assignI18n siteI18n c
          | _ => siteI18n
        match file with
        | some f =>
            if f.i18n.truthy then
              let afterFile :=
                match f.i18n with
                | .obj fc => assignI18n afterCollection fc
                | _ => afterCollection
              (normalizeI18n (some afterFile) true,
               { siteConfig with i18n := .obj afterFile })
            else
              (normalizeI18n none true,
               { siteConfig with i18n := .obj afterCollection })
        | none =>
            (normalizeI18n (some afterCollection) false,
             { siteConfig with i18n := .obj afterCollection })
      else (normalizeI18n none file.isSome, siteConfig)
  | _ => (normalizeI18n none file.isSome, siteConfig)

/-- C10: with an object-valued site `i18n` and an object-valued collection
`i18n`, `getI18nConfig` overwrites the shared site i18n object with the
collection's entries (and the file's entries when an object-valued file
`i18n` is given); the mutation persists after the call, a later call for a
different collection reads the already-overridden object, and whenever the
assignment changes the object the site configuration is not left
unchanged. -/
theorem C10_getI18nConfig_mutates (S C : RawI18nConfig) (site : SiteConfig)
    (col : RawCollection) (hsite : site.i18n = .obj S) (hcol : col.i18n = .obj C) :
    ((getI18nConfig site col none).2 = { site with i18n := .obj (assignI18n S C) }) ∧
    (∀ (F : RawI18nConfig) (f : RawCollectionFile), f.i18n = .obj F →
      (getI18nConfig site col (some f)).2
        = { site with i18n := .obj (assignI18n (assignI18n S C) F) }) ∧
    (∀ (col2 : RawCollection) (C2 : RawI18nConfig), col2.i18n = .obj C2 →
      (getI18nConfig (getI18nConfig site col none).2 col2 none).1
        = normalizeI18n (some (assignI18n (assignI18n S C) C2)) false) ∧
    (assignI18n S C ≠ S → (getI18nConfig site col none).2 ≠ site) := by
  have h1 : (getI18nConfig site col none).2
      = { site with i18n := .obj (assignI18n S C) } := by
    unfold getI18nConfig
    rw [hsite, hcol]
    rfl
  refine ⟨h1, ?_, ?_, ?_⟩
  · intro F f hf
    obtain ⟨fi⟩ := f
    have hfi : fi = I18nField.obj F := hf
    subst hfi
    unfold getI18nConfig
    rw [hsite, hcol]
    rfl
  · intro col2 C2 hcol2
    obtain ⟨ci⟩ := col2
    have hci : ci = I18nField.obj C2 := hcol2
    subst hci
    rw [h1]
    unfold getI18nConfig
    rfl
  · intro hne heq
    apply hne
    rw [h1] at heq
    have hfield := congrArg SiteConfig.i18n heq
    simp only [hsite] at hfield
    injection hfield

/-- Site config for the C10 witness. -/
def siteW : SiteConfig := { i18n := .obj { locales := some ["en"] } }

/-- First collection for the C10 witness: overrides the locales. -/
def colW : RawCollection := { i18n := .obj { locales := some ["fr", "de"] } }

/-- Second collection for the C10 witness: supplies no i18n keys of its own. -/
def colW2 : RawCollection := { i18n := .obj {} }

/-- C10 (witness): after a call for `colW`, the shared site i18n holds
`["fr", "de"]`; a later call for `colW2` — which sets nothing itself —
returns the earlier collection's locales instead of the site's original
`["en"]`, and the site configuration left behind differs from the input. -/
theorem C10_witness :
    (getI18nConfig siteW colW none).2
      = { siteW with i18n := .obj { locales := some ["fr", "de"] } } ∧
    ((getI18nConfig (getI18nConfig siteW colW none).2 colW2 none).1.locales
      = ["fr", "de"]) ∧
    (getI18nConfig siteW colW none).2 ≠ siteW := by
  have h := C10_getI18nConfig_mutates { locales := some ["en"] }
    { locales := some ["fr", "de"] } siteW colW rfl rfl
  refine ⟨?_, ?_, h.2.2.2 (by decide)⟩
  · rw [h.1]
    rfl
  · rw [h.2.2.1 colW2 {} rfl]
    rfl

end Sveltia
